import Mathlib

/-!
Verification development for the ts-project-indexer code base.

The TypeScript sources are shallowly embedded: each definition below is a
direct translation of the corresponding function in the repository
(src/core/indexer.ts, src/core/parser.ts, src/core/path-resolver.ts,
src/cache/cache-manager.ts, src/mcp-server.ts).  JavaScript strings are
modelled as Lean String values and algorithms work on their character
lists; Date values and wall-clock reads are modelled as Nat millisecond
timestamps passed in explicitly; the filesystem is modelled as a pure
directory tree handed to the discovery walk.

JavaScript regular expressions used by the parser are embedded through a
small executable matching engine (RTok below).  The engine implements
ordered-choice alternation with full backtracking across alternatives and
optional groups, and possessive (maximal-munch) character-class
quantifiers; every quantifier in the embedded regexes is a single
character class whose follow set is disjoint from the class (or is
explicitly lazy, which the engine supports), so maximal munch coincides
with the backtracking semantics of the original regex engine on these
patterns.
-/

/-- Characters matched by the JavaScript regex class backslash-s. -/
def jsWs (c : Char) : Bool :=
  c = ' ' || c = '\t' || c = '\n' || c = '\x0b' || c = '\x0c' || c = '\r' ||
  c = '\u00a0' || c = '\u1680' || ('\u2000' ≤ c && c ≤ '\u200a') ||
  c = '\u2028' || c = '\u2029' || c = '\u202f' || c = '\u205f' ||
  c = '\u3000' || c = '\ufeff'

/-- Characters matched by the JavaScript regex class backslash-w. -/
def jsWord (c : Char) : Bool :=
  ('a' ≤ c && c ≤ 'z') || ('A' ≤ c && c ≤ 'Z') || ('0' ≤ c && c ≤ '9') || c = '_'

/-- Characters matched by an unflagged JavaScript regex dot: anything but a
line terminator. -/
def jsDot (c : Char) : Bool :=
  !(c = '\n' || c = '\r' || c = '\u2028' || c = '\u2029')

/-- The three JavaScript string-literal quote characters. -/
def quoteChar (c : Char) : Bool :=
  c = '\x27' || c = '\x22' || c = '\x60'

/-- ASCII lower-casing of one character, as String.prototype.toLowerCase
acts on the ASCII range (symbol names extracted by the parser are
backslash-w runs, hence ASCII). -/
def asciiLower (c : Char) : Char :=
  if 'A' ≤ c && c ≤ 'Z' then Char.ofNat (c.toNat + 32) else c

/-- Lower-case a whole string. -/
def lowerStr (s : String) : String :=
  ⟨s.data.map asciiLower⟩

/-- JavaScript Array/String includes: does the needle occur as a contiguous
infix of the haystack? -/
def listIncl (needle : List Char) : List Char → Bool
  | [] => needle.isEmpty
  | c :: rest => needle.isPrefixOf (c :: rest) || listIncl needle rest

/-- String.prototype.includes. -/
def strIncl (hay needle : String) : Bool :=
  listIncl needle.data hay.data

/-- String.prototype.trim (JavaScript trims WhiteSpace and LineTerminator,
here the backslash-s class). -/
def jsTrim (s : String) : String :=
  ⟨(s.data.dropWhile jsWs).reverse.dropWhile jsWs |>.reverse⟩

/-- String.prototype.indexOf restricted to what the parser stores in the
column field: index of the first occurrence, -1 when absent. -/
def strIndexOf (hay needle : String) : Int :=
  go hay.data 0
where
  go : List Char → Nat → Int
    | [], i => if needle.data.isEmpty then (i : Int) else -1
    | c :: rest, i =>
      if needle.data.isPrefixOf (c :: rest) then (i : Int) else go rest (i + 1)

/-- String.prototype.startsWith. -/
def strStarts (hay pre : String) : Bool :=
  pre.data.isPrefixOf hay.data

/-- String.prototype.endsWith. -/
def strEnds (hay suf : String) : Bool :=
  suf.data.reverse.isPrefixOf hay.data.reverse

/-! ## A small backtracking regex engine

Token programs mirror the parser regexes one token per regex atom; every
quantified atom in the sources is a character class, so quantifiers take a
class predicate.  Alternation (also encoding optional groups) is ordered
choice continuing into the shared continuation, which reproduces the
leftmost-first semantics of the original engine.  Capture groups are
delimited by matching gopen/gclose markers and recorded as substrings of
the input once the surrounding match succeeds. -/

inductive RTok where
  | lit (c : Char)
  | cls (p : Char → Bool)
  | many (p : Char → Bool)
  | many1 (p : Char → Bool)
  | lazy1 (p : Char → Bool)
  | alt (a b : List RTok)
  | gopen (i : Nat)
  | gclose (i : Nat)

mutual

/-- Structural size of one token (alternation arms included). -/
def tsize : RTok → Nat
  | .alt a b => 1 + tsizeL a + tsizeL b
  | _ => 1

/-- Structural size of a token list. -/
def tsizeL : List RTok → Nat
  | [] => 0
  | t :: ts => tsize t + tsizeL ts

end

/-- Run a token program against a suffix of the original input, with
explicit fuel.  Returns the unconsumed rest and the capture-group
assignment.  op is the stack of currently open groups with their start
offsets; offsets are measured from the start of orig.  Every recursive
call strictly decreases s.length + tsizeL ts, so the fuel supplied by
runT below is never exhausted. -/
def runTF (orig : List Char) :
    Nat → List RTok → List Char → List (Nat × Nat) → List (Nat × List Char) →
    Option (List Char × List (Nat × List Char))
  | 0, _, _, _, _ => none
  | _ + 1, [], s, _, caps => some (s, caps)
  | fuel + 1, .lit c :: ts, d :: s, op, caps =>
    if d = c then runTF orig fuel ts s op caps else none
  | _ + 1, .lit _ :: _, [], _, _ => none
  | fuel + 1, .cls p :: ts, d :: s, op, caps =>
    if p d then runTF orig fuel ts s op caps else none
  | _ + 1, .cls _ :: _, [], _, _ => none
  | fuel + 1, .many p :: ts, s, op, caps => runTF orig fuel ts (s.dropWhile p) op caps
  | fuel + 1, .many1 p :: ts, s, op, caps =>
    if (s.takeWhile p).isEmpty then none else runTF orig fuel ts (s.dropWhile p) op caps
  | fuel + 1, .lazy1 p :: ts, d :: s, op, caps =>
    if p d then
      match runTF orig fuel ts s op caps with
      | some r => some r
      | none => runTF orig fuel (.lazy1 p :: ts) s op caps
    else none
  | _ + 1, .lazy1 _ :: _, [], _, _ => none
  | fuel + 1, .alt a b :: ts, s, op, caps =>
    match runTF orig fuel (a ++ ts) s op caps with
    | some r => some r
    | none => runTF orig fuel (b ++ ts) s op caps
  | fuel + 1, .gopen i :: ts, s, op, caps =>
    runTF orig fuel ts s ((i, orig.length - s.length) :: op) caps
  | fuel + 1, .gclose i :: ts, s, op, caps =>
    match op with
    | [] => none
    | (j, st) :: op2 =>
      if i = j then
        let cap := (orig.drop st).take (orig.length - s.length - st)
        runTF orig fuel ts s op2 ((i, cap) :: caps)
      else none

/-- Run a token program with sufficient fuel. -/
def runT (orig : List Char) (ts : List RTok) (s : List Char)
    (op : List (Nat × Nat)) (caps : List (Nat × List Char)) :
    Option (List Char × List (Nat × List Char)) :=
  runTF orig (s.length + tsizeL ts + 1) ts s op caps

/-- Anchored match at the start of the input: the matched prefix may be
proper (the embedded regexes are not end-anchored). -/
def reMatch (ts : List RTok) (s : List Char) : Option (List (Nat × List Char)) :=
  match runT s ts s [] [] with
  | some (_, caps) => some caps
  | none => none

/-- Unanchored search: first matching start position wins, as with
String.prototype.match on a regex without the global flag. -/
def reSearch (ts : List RTok) : List Char → Option (List (Nat × List Char))
  | [] => reMatch ts []
  | c :: rest =>
    match reMatch ts (c :: rest) with
    | some caps => some caps
    | none => reSearch ts rest

/-- Read capture group i (first = innermost-latest record wins). -/
def capGet (caps : List (Nat × List Char)) (i : Nat) : Option String :=
  match caps.find? (fun p => p.1 = i) with
  | some (_, cs) => some ⟨cs⟩
  | none => none

/-- Literal character-sequence tokens for a keyword. -/
def lits (s : String) : List RTok :=
  s.data.map .lit

/-- Ordered alternation over a list of arms (leftmost first). -/
def altList : List (List RTok) → List RTok
  | [] => []
  | [a] => a
  | a :: rest => [.alt a (altList rest)]

/-- An optional group: try with the body, else skip it. -/
def ropt (a : List RTok) : List RTok :=
  [.alt a []]

/-! ## The glob subset of ProjectIndexer.matchesPattern

matchesPattern compiles a pattern to a regex: regex metacharacters other
than star and question mark are escaped (hence literal), double star
becomes dot-star, single star becomes a negated-slash class star, and the
question mark becomes a dot; the regex is anchored on both sides.  The
compiled form is embedded directly as glob tokens with a backtracking
matcher equivalent to the compiled regex. -/

inductive GTok where
  | glit (c : Char)
  | star
  | dstar
  | qmark

/-- Tokenize the (already slash-normalized) pattern, pairing double stars
first exactly as the left-to-right global replace does. -/
def globToks : List Char → List GTok
  | [] => []
  | '*' :: '*' :: rest => .dstar :: globToks rest
  | '*' :: rest => .star :: globToks rest
  | '?' :: rest => .qmark :: globToks rest
  | c :: rest => .glit c :: globToks rest

/-- Suffixes reachable from s by consuming zero or more leading characters
satisfying p (the expansions a class star can take). -/
def spanSuffixes (p : Char → Bool) : List Char → List (List Char)
  | [] => [[]]
  | d :: ds => (d :: ds) :: (if p d then spanSuffixes p ds else [])

/-- Matcher for the compiled glob regex, anchored at both ends, run over
the set of reachable suffixes: star ranges over non-slash characters,
double star over regex-dot characters, question mark is a single regex
dot.  The pattern matches exactly when some suffix set member is consumed
completely, which is the acceptance condition of the compiled regex. -/
def gmatchAux : List GTok → List (List Char) → Bool
  | [], ss => ss.any List.isEmpty
  | .glit c :: ts, ss =>
    gmatchAux ts (ss.filterMap fun s =>
      match s with
      | [] => none
      | d :: ds => if d = c then some ds else none)
  | .qmark :: ts, ss =>
    gmatchAux ts (ss.filterMap fun s =>
      match s with
      | [] => none
      | d :: ds => if jsDot d then some ds else none)
  | .star :: ts, ss => gmatchAux ts (ss.flatMap (spanSuffixes fun d => !(d = '/')))
  | .dstar :: ts, ss => gmatchAux ts (ss.flatMap (spanSuffixes jsDot))

/-- Anchored match of a compiled glob pattern. -/
def gmatch (ts : List GTok) (ds : List Char) : Bool :=
  gmatchAux ts [ds]

/-- Backslash-to-forward-slash normalization applied to both operands. -/
def normSlash (s : String) : String :=
  ⟨s.data.map fun c => if c = '\\' then '/' else c⟩

/-- ProjectIndexer.matchesPattern (src/core/indexer.ts). -/
def matchesPattern (filePath pattern : String) : Bool :=
  gmatch (globToks (normSlash pattern).data) (normSlash filePath).data

example : matchesPattern "src/a/b/c.js" "**/*.ts" = false := by decide
example : matchesPattern "node_modules/x/y.ts" "node_modules/**" = true := by decide
example : matchesPattern "src/node_modules_helper.ts" "node_modules/**" = false := by decide

/-! ## POSIX path arithmetic (node:path)

The server runs the engine over POSIX-style paths; path.resolve, join,
dirname, relative and friends are embedded for that flavour.  Segment
normalization mirrors path normalization: empty and dot segments vanish
and dot-dot pops (capped at the root for absolute paths). -/

/-- Split a character list on one separator character (String.split semantics
of both JavaScript split and node path segmentation). -/
def splitChar (sep : Char) : List Char → List (List Char)
  | [] => [[]]
  | c :: rest =>
    if c = sep then [] :: splitChar sep rest
    else
      match splitChar sep rest with
      | g :: gs => (c :: g) :: gs
      | [] => [[c]]

/-- Join character lists with one separator character. -/
def joinChar (sep : Char) : List (List Char) → List Char
  | [] => []
  | [x] => x
  | x :: y :: rest => x ++ sep :: joinChar sep (y :: rest)

/-- Split a string on slashes into segments. -/
def splitSlash (s : String) : List String :=
  (splitChar '/' s.data).map (⟨·⟩)

/-- Join segments with slashes. -/
def joinSegs (segs : List String) : String :=
  ⟨joinChar '/' (segs.map String.data)⟩

/-- Split a string on newlines, as JavaScript split. -/
def splitNl (s : String) : List String :=
  (splitChar '\n' s.data).map (⟨·⟩)

/-- Normalize a segment list; acc holds the output stack reversed. -/
def normStack (isAbs : Bool) (acc : List String) : List String → List String
  | [] => acc.reverse
  | seg :: rest =>
    if seg = "" || seg = "." then normStack isAbs acc rest
    else if seg = ".." then
      match acc with
      | top :: acc2 =>
        if top = ".." then normStack isAbs (".." :: top :: acc2) rest
        else normStack isAbs acc2 rest
      | [] => if isAbs then normStack isAbs [] rest else normStack isAbs [".."] rest
    else normStack isAbs (seg :: acc) rest

/-- node:path normalize. -/
def normPath (s : String) : String :=
  let isAbs := strStarts s "/"
  let segs := normStack isAbs [] (splitSlash s)
  if isAbs then "/" ++ joinSegs segs
  else if segs.isEmpty then "." else joinSegs segs

/-- node:path resolve with one base: resolve(base, p).  The single-argument
resolve(p) of the sources is resolve(cwd, p). -/
def pathResolve (base p : String) : String :=
  if strStarts p "/" then normPath p else normPath (base ++ "/" ++ p)

/-- node:path join of two parts. -/
def joinP (a b : String) : String :=
  normPath (a ++ "/" ++ b)

/-- node:path dirname. -/
def dirnameP (p : String) : String :=
  let parts := splitSlash p
  if parts.length ≤ 1 then "."
  else
    let d := joinSegs parts.dropLast
    if d = "" then "/" else d

/-- node:path basename. -/
def basenameP (p : String) : String :=
  ((splitSlash p).filter (· ≠ "")).getLastD ""

/-- node:path extname: from the last dot of the basename, empty when the
dot is missing or leads the basename. -/
def extnameP (p : String) : String :=
  let base := (basenameP p).data
  let afterDot := base.reverse.takeWhile (· ≠ '.')
  if afterDot.length = base.length || afterDot.length + 1 = base.length then ""
  else ⟨'.' :: afterDot.reverse⟩

/-- Drop the common prefix of two segment lists. -/
def dropCommon : List String → List String → List String × List String
  | a :: as', b :: bs' => if a = b then dropCommon as' bs' else (a :: as', b :: bs')
  | as', bs' => (as', bs')

/-- node:path relative for absolute operands. -/
def pathRelative (f t : String) : String :=
  let fs := normStack true [] (splitSlash f)
  let ts := normStack true [] (splitSlash t)
  let (f2, t2) := dropCommon fs ts
  joinSegs (List.replicate f2.length ".." ++ t2)

/-! ## Data model (src/core/types.ts)

Records keep the field names of the TypeScript interfaces (from is spelled
dfrom because it is a Lean keyword); optional fields are Option; Date
values are Nat milliseconds.  Map objects are association lists with the
JavaScript Map operations (unique keys, insertion order). -/

structure Parameter where
  name : String
  type : Option String := none
  optional : Option Bool := none
  defaultValue : Option String := none
deriving Repr, DecidableEq

structure FileInfo where
  path : String
  name : String
  extension : String
  size : Nat
  lastModified : Nat
  isDirectory : Bool
  relativePath : String
deriving Repr, DecidableEq

structure MethodInfo where
  name : String
  type : String
  file : String
  line : Nat
  column : Int
  parameters : Option (List Parameter) := none
  returnType : Option String := none
  visibility : Option String := none
  isStatic : Option Bool := none
  isAsync : Option Bool := none
  signature : String
deriving Repr, DecidableEq

structure PathInfo where
  path : String
  method : String
  file : String
  line : Nat
deriving Repr, DecidableEq

structure Dependency where
  dfrom : String
  dto : String
  resolvedTo : Option String := none
  type : String
  file : String
  line : Nat
deriving Repr, DecidableEq

structure IndexData where
  files : List (String × FileInfo)
  methods : List (String × List MethodInfo)
  paths : List (String × List PathInfo)
  dependencies : List (String × List Dependency)
  lastIndexed : Nat
deriving Repr, DecidableEq

/-- JavaScript Map.prototype.get. -/
def mapGet {V : Type} (m : List (String × V)) (k : String) : Option V :=
  match m.find? (fun p => p.1 = k) with
  | some (_, v) => some v
  | none => none

/-- JavaScript Map.prototype.set: replace in place or append. -/
def mapSet {V : Type} (m : List (String × V)) (k : String) (v : V) :
    List (String × V) :=
  if m.any (fun p => p.1 = k) then
    m.map (fun p => if p.1 = k then (k, v) else p)
  else m ++ [(k, v)]

/-- new Map(entries): fold the pairs through set. -/
def mapFromEntries {V : Type} (l : List (String × V)) : List (String × V) :=
  l.foldl (fun m p => mapSet m p.1 p.2) []

/-! ## PathResolver (src/core/path-resolver.ts)

The resolver state holds the project root together with the two optional
configuration documents (their JSON loading in initialize is external I/O;
the parsed documents are inputs of the model) and the ambient working
directory used by the single-argument path.resolve. -/

structure TsCompilerOptions where
  baseUrl : Option String := none
  rootDir : Option String := none
  outDir : Option String := none
  paths : Option (List (String × List String)) := none
deriving Repr

structure TsConfig where
  compilerOptions : Option TsCompilerOptions := none
deriving Repr

structure PackageJson where
  imports : Option (List (String × String)) := none
deriving Repr

structure ResolverState where
  cwd : String
  projectRoot : String
  tsConfig : Option TsConfig := none
  packageJson : Option PackageJson := none
deriving Repr

/-- PathResolver.matchesPattern: exact equality for starless patterns,
otherwise the pattern is compiled with every star turned into dot-star and
matched against the full string.  The existence semantics of that regex is
computed by scanning each literal chunk at every possible position. -/
def chunksMatch : Nat → List (List Char) → List Char → Bool
  | 0, _, _ => false
  | _ + 1, [], s => s.isEmpty
  | fuel + 1, p :: ps, s =>
    (p.isPrefixOf s && chunksMatch fuel ps (s.drop p.length)) ||
      (match s with
       | [] => false
       | _ :: s2 => chunksMatch fuel (p :: ps) s2)

/-- Fuel that dominates the chunk scan depth. -/
def aliasPatternMatch (importPath pattern : String) : Bool :=
  if !(strIncl pattern "*") then importPath = pattern
  else
    match (splitChar '*' pattern.data) with
    | [] => importPath.data.isEmpty
    | p0 :: rest =>
      p0.isPrefixOf importPath.data &&
        chunksMatch (importPath.data.length + rest.length + 1) rest
          (importPath.data.drop p0.length)

/-- Replace the first star of the target with the replacement. -/
def replaceFirstStar (repl : List Char) : List Char → List Char
  | [] => []
  | c :: rest => if c = '*' then repl ++ rest else c :: replaceFirstStar repl rest

/-- PathResolver.replacePattern. -/
def replacePattern (importPath pattern target : String) : String :=
  if !(strIncl pattern "*") || !(strIncl target "*") then target
  else
    let parts := (splitChar '*' pattern.data).map (fun l => (⟨l⟩ : String))
    let patternPrefix := parts.getD 0 ""
    let patternSuffix := parts.getD 1 ""
    if !(strStarts importPath patternPrefix) then target
    else
      let w0 := importPath.data.drop patternPrefix.data.length
      let wildcardValue :=
        if patternSuffix ≠ "" && strEnds (⟨w0⟩ : String) patternSuffix then
          w0.take (w0.length - patternSuffix.data.length)
        else w0
      ⟨replaceFirstStar wildcardValue target.data⟩

/-- Does the path end in one of the recognized extensions
(the regex dot-(js|ts|jsx|tsx|json)-dollar)? -/
def hasRecExt (s : String) : Bool :=
  strEnds s ".js" || strEnds s ".ts" || strEnds s ".jsx" || strEnds s ".tsx" ||
    strEnds s ".json"

/-- Strip one trailing recognized extension (the replace with the same
regex). -/
def stripRecExt (s : String) : String :=
  if strEnds s ".json" then ⟨s.data.take (s.data.length - 5)⟩
  else if strEnds s ".jsx" || strEnds s ".tsx" then ⟨s.data.take (s.data.length - 4)⟩
  else if strEnds s ".js" || strEnds s ".ts" then ⟨s.data.take (s.data.length - 3)⟩
  else s

/-- PathResolver.resolveToExistingFile: deterministic extension probing,
no filesystem check. -/
def resolveToExistingFile (st : ResolverState) (basePath : String) : String :=
  let withoutExt := stripRecExt basePath
  if strEnds basePath ".js" then withoutExt ++ ".ts"
  else if !(hasRecExt basePath) then
    if strIncl basePath "/src/" ||
        strStarts (pathRelative st.projectRoot basePath) "src/" then
      withoutExt ++ ".ts"
    else withoutExt ++ ".js"
  else basePath

/-- PathResolver.resolvePackageImport. -/
def resolvePackageImport (st : ResolverState) (importPath : String) :
    Option String :=
  match st.packageJson with
  | none => none
  | some pkg =>
    match pkg.imports with
    | none => none
    | some entries =>
      match entries.find? (fun e => aliasPatternMatch importPath e.1) with
      | none => none
      | some (pattern, target) =>
        let resolvedPath := replacePattern importPath pattern target
        let resolvedPath :=
          if strStarts resolvedPath "./dist/" then
            "./src/" ++ ⟨resolvedPath.data.drop 7⟩
          else if strStarts resolvedPath "dist/" then
            "src/" ++ ⟨resolvedPath.data.drop 5⟩
          else resolvedPath
        some (resolveToExistingFile st (pathResolve st.projectRoot resolvedPath))

/-- PathResolver.resolveRelativeImport. -/
def resolveRelativeImport (st : ResolverState) (importPath fromDir : String) :
    Option String :=
  some (resolveToExistingFile st (pathResolve fromDir importPath))

/-- PathResolver.resolveAbsoluteImport. -/
def resolveAbsoluteImport (st : ResolverState) (importPath : String) :
    Option String :=
  some (resolveToExistingFile st importPath)

/-- PathResolver.resolvePathMapping.  resolveToExistingFile never returns
null, so the first target of the first matching pattern wins; the loop
structure over the remaining targets is kept. -/
def resolvePathMapping (st : ResolverState) (importPath : String) :
    Option String :=
  match st.tsConfig with
  | none => none
  | some cfg =>
    match cfg.compilerOptions with
    | none => none
    | some co =>
      match co.paths with
      | none => none
      | some entries =>
        let baseUrl := co.baseUrl.getD "."
        let baseDir := pathResolve st.projectRoot baseUrl
        let step := fun (acc : Option String) (e : String × List String) =>
          match acc with
          | some r => some r
          | none =>
            if aliasPatternMatch importPath e.1 then
              e.2.foldl
                (fun acc2 target =>
                  match acc2 with
                  | some r => some r
                  | none =>
                    let resolvedPath := replacePattern importPath e.1 target
                    let resolvedPath :=
                      if strStarts resolvedPath "./" then
                        (⟨resolvedPath.data.drop 2⟩ : String)
                      else resolvedPath
                    some (resolveToExistingFile st
                      (pathResolve baseDir resolvedPath)))
                none
            else none
        entries.foldl step none

/-- Does the tsConfig carry a paths mapping (the truthiness test guarding
branch 4 of resolveImportPath)? -/
def hasTsPaths (st : ResolverState) : Bool :=
  match st.tsConfig with
  | some cfg =>
    match cfg.compilerOptions with
    | some co => co.paths.isSome
    | none => false
  | none => false

/-- PathResolver.resolveImportPath. -/
def resolveImportPath (st : ResolverState) (importPath fromFile : String) :
    Option String :=
  let fromDir := dirnameP fromFile
  if strStarts importPath "#" then resolvePackageImport st importPath
  else if strStarts importPath "./" || strStarts importPath "../" then
    resolveRelativeImport st importPath fromDir
  else if strStarts importPath "/" then resolveAbsoluteImport st importPath
  else if hasTsPaths st then resolvePathMapping st importPath
  else none

/-- PathResolver.normalizeFilePath: project-relative, forward slashes. -/
def normalizeFilePath (st : ResolverState) (filePath : String) : String :=
  let absolutePath := pathResolve st.cwd filePath
  normSlash (pathRelative st.projectRoot absolutePath)

/-! ## CodeParser (src/core/parser.ts)

Each parser regex becomes a token program; group numbers follow the
capture numbering of the original regex.  Character classes used: -/

def notQuote (c : Char) : Bool := !(quoteChar c)

def notRbrace (c : Char) : Bool := !(c = '\x7d')

def notLbrace (c : Char) : Bool := !(c = '\x7b')

def notRparen (c : Char) : Bool := !(c = ')')

def notEq (c : Char) : Bool := !(c = '=')

/-- ASCII upper-casing (String.prototype.toUpperCase on the extracted
backslash-w verbs). -/
def asciiUpper (c : Char) : Char :=
  if 'a' ≤ c && c ≤ 'z' then Char.ofNat (c.toNat - 32) else c

def upperStr (s : String) : String :=
  ⟨s.data.map asciiUpper⟩

/-- The quoted-capture tail shared by the import and route regexes:
a quote, the captured non-quote run, a quote. -/
def quotedCap (i : Nat) : List RTok :=
  [.cls quoteChar, .gopen i, .many1 notQuote, .gclose i, .cls quoteChar]

/-- ES import regex of parseImports (anchored). -/
def esImportToks : List RTok :=
  [.many jsWs] ++ lits "import" ++ [.many1 jsWs] ++
    ropt (altList
        [[.lit '\x7b', .many notRbrace, .lit '\x7d'],
         [.lit '*', .many1 jsWs] ++ lits "as" ++ [.many1 jsWs, .many1 jsWord],
         [.many1 jsWord]] ++
      [.many1 jsWs] ++ lits "from" ++ [.many1 jsWs]) ++
    quotedCap 1

/-- CommonJS require regex of parseImports (searched). -/
def requireToks : List RTok :=
  lits "require" ++ [.many jsWs, .lit '('] ++ quotedCap 1 ++ [.lit ')']

/-- Run an anchored program and read group 1. -/
def matchCap1 (ts : List RTok) (s : String) : Option String :=
  match reMatch ts s.data with
  | some caps => capGet caps 1
  | none => none

/-- Run a searched program and read group 1. -/
def searchCap1 (ts : List RTok) (s : String) : Option String :=
  match reSearch ts s.data with
  | some caps => capGet caps 1
  | none => none

/-- The ES-import rule of parseImports: one dependency whose resolvedTo
is the resolver result kept absolute when resolution succeeds, and the raw
specifier otherwise. -/
def esImportDep (rst : Option ResolverState) (filePath : String)
    (line : String) (lineNo : Nat) : List Dependency :=
  match matchCap1 esImportToks line with
  | some originalImportPath =>
    let resolvedPath :=
      match rst with
      | some st =>
        match resolveImportPath st originalImportPath filePath with
        | some resolved => resolved
        | none => originalImportPath
      | none => originalImportPath
    [{ dfrom := filePath, dto := originalImportPath,
       resolvedTo := some resolvedPath, type := "import",
       file := filePath, line := lineNo }]
  | none => []

/-- The require rule of parseImports: as the ES rule, but a successful
resolution is normalized to the project-relative form. -/
def requireDep (rst : Option ResolverState) (filePath : String)
    (line : String) (lineNo : Nat) : List Dependency :=
  match searchCap1 requireToks line with
  | some originalImportPath =>
    let resolvedPath :=
      match rst with
      | some st =>
        match resolveImportPath st originalImportPath filePath with
        | some resolved => normalizeFilePath st resolved
        | none => originalImportPath
      | none => originalImportPath
    [{ dfrom := filePath, dto := originalImportPath,
       resolvedTo := some resolvedPath, type := "import",
       file := filePath, line := lineNo }]
  | none => []

/-- One line of CodeParser.parseImports: the two rules fire independently
and push in source order. -/
def parseImportsLine (rst : Option ResolverState) (filePath : String)
    (line : String) (lineNo : Nat) : List Dependency :=
  esImportDep rst filePath line lineNo ++ requireDep rst filePath line lineNo

/-- CodeParser.parseImports. -/
def parseImports (rst : Option ResolverState) (content filePath : String) :
    List Dependency :=
  (splitNl content).enum.flatMap fun p =>
    parseImportsLine rst filePath p.2 (p.1 + 1)

/-- Function-declaration regex (anchored on the trimmed line). -/
def functionToks : List RTok :=
  ropt (lits "export" ++ [.many1 jsWs]) ++
    ropt (lits "async" ++ [.many1 jsWs]) ++
    lits "function" ++
    [.many1 jsWs, .gopen 1, .many1 jsWord, .gclose 1, .many jsWs, .lit '(',
     .gopen 2, .many notRparen, .gclose 2, .lit ')'] ++
    ropt [.many jsWs, .lit ':', .many jsWs, .gopen 3, .many1 notLbrace, .gclose 3]

/-- Arrow-function regex (searched on the trimmed line). -/
def arrowToks : List RTok :=
  ropt (lits "export" ++ [.many1 jsWs]) ++
    altList [lits "const", lits "let", lits "var"] ++
    [.many1 jsWs, .gopen 1, .many1 jsWord, .gclose 1, .many jsWs, .lit '=',
     .many jsWs] ++
    ropt (lits "async" ++ [.many jsWs]) ++
    [.lit '(', .gopen 2, .many notRparen, .gclose 2, .lit ')', .many jsWs] ++
    ropt [.lit ':', .many jsWs, .gopen 3, .lazy1 notEq, .gclose 3] ++
    [.many jsWs] ++ lits "=>"

/-- Class-declaration regex (anchored). -/
def classToks : List RTok :=
  ropt (lits "export" ++ [.many1 jsWs]) ++
    ropt (lits "abstract" ++ [.many1 jsWs]) ++
    lits "class" ++ [.many1 jsWs, .gopen 1, .many1 jsWord, .gclose 1] ++
    ropt ([.many1 jsWs] ++ lits "extends" ++
      [.many1 jsWs, .gopen 2, .many1 jsWord, .gclose 2]) ++
    ropt ([.many1 jsWs] ++ lits "implements" ++
      [.many1 jsWs, .gopen 3, .many1 notLbrace, .gclose 3])

/-- Interface-declaration regex (anchored). -/
def interfaceToks : List RTok :=
  ropt (lits "export" ++ [.many1 jsWs]) ++
    lits "interface" ++ [.many1 jsWs, .gopen 1, .many1 jsWord, .gclose 1] ++
    ropt ([.many1 jsWs] ++ lits "extends" ++
      [.many1 jsWs, .gopen 2, .many1 notLbrace, .gclose 2])

/-- Type-alias regex (anchored). -/
def typeToks : List RTok :=
  ropt (lits "export" ++ [.many1 jsWs]) ++
    lits "type" ++
    [.many1 jsWs, .gopen 1, .many1 jsWord, .gclose 1, .many jsWs, .lit '=']

/-- Enum regex (anchored). -/
def enumToks : List RTok :=
  ropt (lits "export" ++ [.many1 jsWs]) ++
    lits "enum" ++ [.many1 jsWs, .gopen 1, .many1 jsWord, .gclose 1]

/-- Method-declaration regex (anchored). -/
def methodToks : List RTok :=
  ropt ([.gopen 1] ++
      altList [lits "private", lits "protected", lits "public"] ++
      [.gclose 1, .many1 jsWs]) ++
    ropt ([.gopen 2] ++ lits "static" ++ [.gclose 2, .many1 jsWs]) ++
    ropt ([.gopen 3] ++ lits "async" ++ [.gclose 3, .many1 jsWs]) ++
    [.gopen 4, .many1 jsWord, .gclose 4, .many jsWs, .lit '(',
     .gopen 5, .many notRparen, .gclose 5, .lit ')'] ++
    ropt [.many jsWs, .lit ':', .many jsWs, .gopen 6, .many1 notLbrace, .gclose 6]

/-- Typed-parameter regex of parseParameters (searched). -/
def paramToks : List RTok :=
  [.gopen 1, .many1 jsWord, .gclose 1] ++
    ropt [.gopen 2, .lit '?', .gclose 2] ++
    [.many jsWs, .lit ':', .many jsWs, .gopen 3, .many1 notEq, .gclose 3] ++
    ropt [.many jsWs, .lit '=', .many jsWs, .gopen 4, .many1 jsDot, .gclose 4]

/-- Untyped-parameter regex of parseParameters (searched). -/
def paramSimpleToks : List RTok :=
  [.gopen 1, .many1 jsWord, .gclose 1] ++
    ropt [.gopen 2, .lit '?', .gclose 2] ++
    ropt [.many jsWs, .lit '=', .many jsWs, .gopen 3, .many1 jsDot, .gclose 3]

/-- CodeParser.parseParameters. -/
def parseParameters (paramString : String) : List Parameter :=
  if (jsTrim paramString).data.isEmpty then []
  else
    (splitChar ',' paramString.data).map fun raw =>
      let trimmed : String := jsTrim ⟨raw⟩
      match reSearch paramToks trimmed.data with
      | some caps =>
        { name := (capGet caps 1).getD "",
          optional := some (capGet caps 2).isSome,
          type := (capGet caps 3).map jsTrim,
          defaultValue := (capGet caps 4).map jsTrim }
      | none =>
        match reSearch paramSimpleToks trimmed.data with
        | some caps =>
          { name := (capGet caps 1).getD "",
            optional := some (capGet caps 2).isSome,
            defaultValue := (capGet caps 3).map jsTrim }
        | none => { name := trimmed }

/-- One line of CodeParser.parseMethods: the seven rules fire
independently on the trimmed line and push in source order. -/
def parseMethodsLine (filePath line : String) (lineNo : Nat) : List MethodInfo :=
  let trimmedLine := jsTrim line
  let functionPart :=
    match reMatch functionToks trimmedLine.data with
    | some caps =>
      [{ name := (capGet caps 1).getD "", type := "function", file := filePath,
         line := lineNo, column := strIndexOf line "function",
         parameters := some (parseParameters ((capGet caps 2).getD "")),
         returnType := (capGet caps 3).map jsTrim,
         isAsync := some (strIncl trimmedLine "async"),
         signature := trimmedLine }]
    | none => []
  let arrowPart :=
    match reSearch arrowToks trimmedLine.data with
    | some caps =>
      [{ name := (capGet caps 1).getD "", type := "function", file := filePath,
         line := lineNo, column := strIndexOf line ((capGet caps 1).getD ""),
         parameters := some (parseParameters ((capGet caps 2).getD "")),
         returnType := (capGet caps 3).map jsTrim,
         isAsync := some (strIncl trimmedLine "async"),
         signature := trimmedLine }]
    | none => []
  let classPart :=
    match reMatch classToks trimmedLine.data with
    | some caps =>
      [{ name := (capGet caps 1).getD "", type := "class", file := filePath,
         line := lineNo, column := strIndexOf line "class",
         signature := trimmedLine }]
    | none => []
  let interfacePart :=
    match reMatch interfaceToks trimmedLine.data with
    | some caps =>
      [{ name := (capGet caps 1).getD "", type := "interface", file := filePath,
         line := lineNo, column := strIndexOf line "interface",
         signature := trimmedLine }]
    | none => []
  let typePart :=
    match reMatch typeToks trimmedLine.data with
    | some caps =>
      [{ name := (capGet caps 1).getD "", type := "type", file := filePath,
         line := lineNo, column := strIndexOf line "type",
         signature := trimmedLine }]
    | none => []
  let enumPart :=
    match reMatch enumToks trimmedLine.data with
    | some caps =>
      [{ name := (capGet caps 1).getD "", type := "enum", file := filePath,
         line := lineNo, column := strIndexOf line "enum",
         signature := trimmedLine }]
    | none => []
  let methodPart :=
    match reMatch methodToks trimmedLine.data with
    | some caps =>
      if !(strIncl trimmedLine "function") && !(strIncl trimmedLine "=") then
        [{ name := (capGet caps 4).getD "", type := "method", file := filePath,
           line := lineNo, column := strIndexOf line ((capGet caps 4).getD ""),
           parameters := some (parseParameters ((capGet caps 5).getD "")),
           returnType := (capGet caps 6).map jsTrim,
           visibility := some ((capGet caps 1).getD "public"),
           isStatic := some (capGet caps 2).isSome,
           isAsync := some (capGet caps 3).isSome,
           signature := trimmedLine }]
      else []
    | none => []
  functionPart ++ arrowPart ++ classPart ++ interfacePart ++ typePart ++
    enumPart ++ methodPart

/-- CodeParser.parseMethods. -/
def parseMethods (content filePath : String) : List MethodInfo :=
  (splitNl content).enum.flatMap fun p =>
    parseMethodsLine filePath p.2 (p.1 + 1)

/-- The seven route verbs, as alternation arms. -/
def routeVerbAlt : List RTok :=
  altList [lits "get", lits "post", lits "put", lits "delete", lits "patch",
    lits "head", lits "options"]

/-- Hono-style route regex of parsePaths (searched). -/
def honoToks : List RTok :=
  [.lit '.'] ++ routeVerbAlt ++ [.many jsWs, .lit '(', .many jsWs] ++ quotedCap 1

/-- Express-style route regex of parsePaths: textually identical to the
Hono one in the sources. -/
def expressToks : List RTok :=
  [.lit '.'] ++ routeVerbAlt ++ [.many jsWs, .lit '(', .many jsWs] ++ quotedCap 1

/-- Decorator-style route regex of parsePaths (searched). -/
def decoratorToks : List RTok :=
  [.lit '@'] ++ routeVerbAlt ++ [.many jsWs, .lit '(', .many jsWs] ++ quotedCap 1

/-- The dot-verb extractor regex of parsePaths. -/
def dotVerbToks : List RTok :=
  [.lit '.', .gopen 1, .many1 jsWord, .gclose 1, .many jsWs, .lit '(']

/-- The at-verb extractor regex of parsePaths. -/
def atVerbToks : List RTok :=
  [.lit '@', .gopen 1, .many1 jsWord, .gclose 1, .many jsWs, .lit '(']

def httpMethods : List String :=
  ["GET", "POST", "PUT", "DELETE", "PATCH", "HEAD", "OPTIONS"]

/-- The Hono rule of parsePaths. -/
def honoRule (filePath line : String) (lineNo : Nat) : List PathInfo :=
  match searchCap1 honoToks line with
  | some p =>
    match (searchCap1 dotVerbToks line).map upperStr with
    | some m =>
      if httpMethods.contains m then
        [{ path := p, method := m, file := filePath, line := lineNo }]
      else []
    | none => []
  | none => []

/-- The Express rule of parsePaths (identical in the sources). -/
def expressRule (filePath line : String) (lineNo : Nat) : List PathInfo :=
  match searchCap1 expressToks line with
  | some p =>
    match (searchCap1 dotVerbToks line).map upperStr with
    | some m =>
      if httpMethods.contains m then
        [{ path := p, method := m, file := filePath, line := lineNo }]
      else []
    | none => []
  | none => []

/-- The decorator rule of parsePaths. -/
def decoratorRule (filePath line : String) (lineNo : Nat) : List PathInfo :=
  match searchCap1 decoratorToks line with
  | some p =>
    match (searchCap1 atVerbToks line).map upperStr with
    | some m =>
      if httpMethods.contains m then
        [{ path := p, method := m, file := filePath, line := lineNo }]
      else []
    | none => []
  | none => []

/-- One line of CodeParser.parsePaths. -/
def parsePathsLine (filePath line : String) (lineNo : Nat) : List PathInfo :=
  honoRule filePath line lineNo ++ expressRule filePath line lineNo ++
    decoratorRule filePath line lineNo

/-- CodeParser.parsePaths. -/
def parsePaths (content filePath : String) : List PathInfo :=
  (splitNl content).enum.flatMap fun p =>
    parsePathsLine filePath p.2 (p.1 + 1)

/-- CodeParser.isTypeScriptFile. -/
def isTypeScriptFile (filePath : String) : Bool :=
  strEnds filePath ".ts" || strEnds filePath ".tsx"

/-- CodeParser.isJavaScriptFile. -/
def isJavaScriptFile (filePath : String) : Bool :=
  strEnds filePath ".js" || strEnds filePath ".jsx" || strEnds filePath ".mjs"

/-- CodeParser.shouldParseFile. -/
def shouldParseFile (filePath : String) : Bool :=
  isTypeScriptFile filePath || isJavaScriptFile filePath

structure ParsedFile where
  methods : List MethodInfo
  paths : List PathInfo
  dependencies : List Dependency
deriving Repr, DecidableEq

/-- CodeParser.parseFile; the file read is external, so the content is an
input of the model. -/
def parseFile (rst : Option ResolverState) (filePath content : String) :
    ParsedFile :=
  { methods := parseMethods content filePath,
    paths := parsePaths content filePath,
    dependencies := parseImports rst content filePath }

/-! ## CacheManager (src/cache/cache-manager.ts)

Two tiers: the in-memory map and the per-key persisted files, modelled as
an association from sanitized file keys to the entries their JSON files
hold (writing and re-parsing a well-formed entry is the identity; corrupt
or missing files are absent keys).  Timestamps are Nat milliseconds; the
JavaScript now - timestamp comparison is non-negative whenever it can
exceed a ttl, so Nat subtraction is faithful. -/

structure CacheEntry (α : Type) where
  data : α
  timestamp : Nat
  ttl : Option Nat := none
deriving Repr, DecidableEq

structure CacheState (α : Type) where
  memory : List (String × CacheEntry α) := []
  disk : List (String × CacheEntry α) := []
deriving Repr, DecidableEq

/-- JavaScript Map.prototype.delete / file unlink. -/
def mapDelete {V : Type} (m : List (String × V)) (k : String) :
    List (String × V) :=
  m.filter (fun p => !(p.1 = k))

def isAlnumAscii (c : Char) : Bool :=
  ('a' ≤ c && c ≤ 'z') || ('A' ≤ c && c ≤ 'Z') || ('0' ≤ c && c ≤ '9')

/-- Collapse runs of underscores to one underscore; the flag records
whether the previous character was an underscore. -/
def collapseUnders (prevU : Bool) : List Char → List Char
  | [] => []
  | c :: rest =>
    if c = '_' then
      if prevU then collapseUnders true rest else '_' :: collapseUnders true rest
    else c :: collapseUnders false rest

/-- CacheManager.sanitizeKey. -/
def sanitizeKey (key : String) : String :=
  ⟨(collapseUnders false
      (key.data.map fun c => if isAlnumAscii c then c else '_')).take 200⟩

def defaultTtl : Nat := 1000 * 60 * 60 * 24

/-- CacheManager.isExpired: a falsy ttl (absent or zero) never expires;
otherwise strict now - timestamp > ttl. -/
def isExpired {α : Type} (now : Nat) (entry : CacheEntry α) : Bool :=
  match entry.ttl with
  | none => false
  | some t => if t = 0 then false else decide (now - entry.timestamp > t)

/-- CacheManager.get: memory first; on miss or memory expiry the persisted
entry is consulted, promoted when fresh, deleted when expired. -/
def cacheGet {α : Type} (st : CacheState α) (key : String) (now : Nat) :
    Option α × CacheState α :=
  let diskStep : Option α × CacheState α :=
    match mapGet st.disk (sanitizeKey key) with
    | some entry =>
      if !(isExpired now entry) then
        (some entry.data, { st with memory := mapSet st.memory key entry })
      else
        (none,
          { memory := mapDelete st.memory key,
            disk := mapDelete st.disk (sanitizeKey key) })
    | none => (none, st)
  match mapGet st.memory key with
  | some memoryEntry =>
    if !(isExpired now memoryEntry) then (some memoryEntry.data, st)
    else diskStep
  | none => diskStep

/-- CacheManager.set: ttl falls back to the default when falsy; both tiers
are written (a failed disk write would leave the disk tier unchanged —
the claims below only exercise the successful write). -/
def cacheSet {α : Type} (st : CacheState α) (key : String) (data : α)
    (ttl : Option Nat) (now : Nat) : CacheState α :=
  let entry : CacheEntry α :=
    { data := data, timestamp := now,
      ttl := some (match ttl with
        | some t => if t = 0 then defaultTtl else t
        | none => defaultTtl) }
  { memory := mapSet st.memory key entry,
    disk := mapSet st.disk (sanitizeKey key) entry }

/-- CacheManager.delete. -/
def cacheDelete {α : Type} (st : CacheState α) (key : String) : CacheState α :=
  { memory := mapDelete st.memory key,
    disk := mapDelete st.disk (sanitizeKey key) }

/-! ## ProjectIndexer (src/core/indexer.ts)

The filesystem visible to discovery is a pure directory tree (FSTree
mutual with its entry list so every traversal is structural); file nodes
carry content and stat data.  The tree handed to analyzeProject is the one
rooted at the resolved project path. -/

mutual

inductive FSTree where
  | file (name content : String) (mtime : Nat)
  | dir (name : String) (entries : FSList)

inductive FSList where
  | nil
  | cons (e : FSTree) (rest : FSList)

end

def FSTree.name : FSTree → String
  | .file n _ _ => n
  | .dir n _ => n

structure AnalysisOptions where
  projectPath : String
  includePatterns : List String
  excludePatterns : List String
  forceReindex : Bool
deriving Repr

/-- The shouldInclude closure of findFiles. -/
def shouldInclude (projectPath : String) (opts : AnalysisOptions)
    (filePath : String) : Bool :=
  let relativePath := pathRelative projectPath filePath
  if opts.excludePatterns.any (fun p => matchesPattern relativePath p) then false
  else if opts.includePatterns.isEmpty then true
  else opts.includePatterns.any (fun p => matchesPattern relativePath p)

mutual

/-- The walkDirectory closure of findFiles: the guard that the directory
stays under the resolved project root, then the entry loop.  cwd feeds the
single-argument path.resolve calls. -/
def walkDirectory (cwd resolvedProjectPath : String) (inc : String → Bool)
    (dirPath : String) : FSTree → List String
  | .file _ _ _ => []
  | .dir _ entries =>
    if !(strStarts (pathResolve cwd dirPath) resolvedProjectPath) then []
    else walkEntries cwd resolvedProjectPath inc dirPath entries

/-- The per-entry loop: re-check containment, recurse into directories,
collect files passing the filters and the parser extension check. -/
def walkEntries (cwd resolvedProjectPath : String) (inc : String → Bool)
    (dirPath : String) : FSList → List String
  | .nil => []
  | .cons e rest =>
    let fullPath := joinP dirPath e.name
    let here :=
      if !(strStarts (pathResolve cwd fullPath) resolvedProjectPath) then []
      else
        match e with
        | .dir _ _ => walkDirectory cwd resolvedProjectPath inc fullPath e
        | .file _ _ _ =>
          if inc fullPath && shouldParseFile fullPath then [fullPath] else []
    here ++ walkEntries cwd resolvedProjectPath inc dirPath rest

end

/-- ProjectIndexer.findFiles. -/
def findFiles (cwd projectPath : String) (opts : AnalysisOptions)
    (root : FSTree) : List String :=
  walkDirectory cwd (pathResolve cwd projectPath)
    (shouldInclude projectPath opts) projectPath root

mutual

/-- All files of the tree with their absolute paths, content and mtime
(the model of fs.stat and readFile for processFile). -/
def fsEntries (dirPath : String) : FSTree → List (String × String × Nat)
  | .file n content mtime => [(joinP dirPath n, content, mtime)]
  | .dir n entries => fsEntriesList (joinP dirPath n) entries

def fsEntriesList (dirPath : String) : FSList → List (String × String × Nat)
  | .nil => []
  | .cons e rest =>
    (match e with
     | .file n content mtime => [(joinP dirPath n, content, mtime)]
     | .dir n entries => fsEntriesList (joinP dirPath n) entries) ++
      fsEntriesList dirPath rest

end

/-- ProjectIndexer.processFile: record the FileInfo, and when the parser
recognizes the extension store the non-empty extraction results.  Files
the filesystem cannot stat are skipped (the catch branch). -/
def processFile (rst : Option ResolverState)
    (fsTable : List (String × String × Nat)) (projectRoot filePath : String)
    (idx : IndexData) : IndexData :=
  match fsTable.find? (fun p => p.1 = filePath) with
  | none => idx
  | some (_, content, mtime) =>
    let relativePath := pathRelative projectRoot filePath
    let fileInfo : FileInfo :=
      { path := filePath, name := basenameP filePath,
        extension := extnameP filePath, size := content.utf8ByteSize,
        lastModified := mtime, isDirectory := false,
        relativePath := relativePath }
    let idx := { idx with files := mapSet idx.files filePath fileInfo }
    if shouldParseFile filePath then
      let pf := parseFile rst filePath content
      let idx :=
        if !pf.methods.isEmpty then
          { idx with methods := mapSet idx.methods filePath pf.methods }
        else idx
      let idx :=
        if !pf.paths.isEmpty then
          { idx with paths := mapSet idx.paths filePath pf.paths }
        else idx
      if !pf.dependencies.isEmpty then
        { idx with
          dependencies := mapSet idx.dependencies filePath pf.dependencies }
      else idx
    else idx

/-- ProjectIndexer.getAllMethods. -/
def getAllMethods (idx : IndexData) : List MethodInfo :=
  idx.methods.flatMap (fun p => p.2)

/-- ProjectIndexer.getAllPaths. -/
def getAllPaths (idx : IndexData) : List PathInfo :=
  idx.paths.flatMap (fun p => p.2)

/-- ProjectIndexer.getAllDependencies. -/
def getAllDependencies (idx : IndexData) : List Dependency :=
  idx.dependencies.flatMap (fun p => p.2)

structure AnalyzeStats where
  totalFiles : Nat
  totalMethods : Nat
  totalPaths : Nat
  totalDependencies : Nat
  duration : Nat
deriving Repr, DecidableEq

/-- ProjectIndexer.getStats. -/
def getStats (idx : IndexData) (duration : Nat) : AnalyzeStats :=
  { totalFiles := idx.files.length,
    totalMethods := (getAllMethods idx).length,
    totalPaths := (getAllPaths idx).length,
    totalDependencies := (getAllDependencies idx).length,
    duration := duration }

/-- serializeIndexData: Map.entries snapshots (association lists already
are entry lists) plus the timestamp. -/
structure SerializedIndexData where
  files : List (String × FileInfo)
  methods : List (String × List MethodInfo)
  paths : List (String × List PathInfo)
  dependencies : List (String × List Dependency)
  lastIndexed : Nat
deriving Repr, DecidableEq

def serializeIndexData (idx : IndexData) : SerializedIndexData :=
  { files := idx.files, methods := idx.methods, paths := idx.paths,
    dependencies := idx.dependencies, lastIndexed := idx.lastIndexed }

/-- deserializeIndexData: new Map over each entry list, new Date over the
timestamp. -/
def deserializeIndexData (d : SerializedIndexData) : IndexData :=
  { files := mapFromEntries d.files, methods := mapFromEntries d.methods,
    paths := mapFromEntries d.paths,
    dependencies := mapFromEntries d.dependencies,
    lastIndexed := d.lastIndexed }

/-- searchMethods builds its regex from the query with every regex
metacharacter escaped, so the compiled pattern is the literal character
sequence of the query; the i flag is modelled by lower-casing pattern and
subject before the literal search. -/
def queryRegexTest (query name : String) : Bool :=
  (reSearch ((lowerStr query).data.map RTok.lit) (lowerStr name).data).isSome

/-- ProjectIndexer.findMethodUsages. -/
def findMethodUsages (idx : IndexData) (methodName : String) : List String :=
  idx.dependencies.flatMap fun p =>
    (p.2.filter fun dep =>
        strIncl dep.dto methodName || strIncl dep.dfrom methodName).map
      fun dep => p.1 ++ ":" ++ toString dep.line

/-- ProjectIndexer.searchMethods: iterate every stored method list; skip
on the type filter; keep when the lower-cased name contains the
lower-cased query or the escaped query regex matches the name. -/
def searchMethods (idx : IndexData) (query : String) (type : String)
    (includeUsages : Bool) : List (MethodInfo × Option (List String)) :=
  idx.methods.flatMap fun p =>
    p.2.filterMap fun m =>
      if type ≠ "all" && m.type ≠ type then none
      else
        let nameMatch := strIncl (lowerStr m.name) (lowerStr query) ||
          queryRegexTest query m.name
        if nameMatch then
          some (m,
            if includeUsages then some (findMethodUsages idx m.name) else none)
        else none

structure DepState where
  incoming : List Dependency := []
  outgoing : List Dependency := []
  visited : List String := []
  graph : List (String × List String) := []
deriving Repr, DecidableEq

/-- The graph bookkeeping of findDependenciesRecursive. -/
def graphAdd (g : List (String × List String)) (k v : String) :
    List (String × List String) :=
  if g.any (fun p => p.1 = k) then
    g.map (fun p => if p.1 = k then (p.1, p.2 ++ [v]) else p)
  else g ++ [(k, [v])]

/-- ProjectIndexer.findDependenciesRecursive with explicit fuel standing
for the call stack: the source recursion has no structural measure of its
own (its termination is exactly what claim C7 asserts), so each nested
call consumes one fuel unit and exhaustion surfaces as none. -/
def findDepsFuel (idx : IndexData) (direction : String) (depth : Nat) :
    Nat → String → Nat → DepState → Option DepState
  | 0, _, _, _ => none
  | fuel + 1, entityName, currentDepth, st =>
    if currentDepth ≥ depth || st.visited.contains entityName then some st
    else
      let st1 := { st with visited := st.visited ++ [entityName] }
      idx.dependencies.foldl
        (fun acc p =>
          p.2.foldl
            (fun acc2 dep =>
              match acc2 with
              | none => none
              | some s =>
                let afterOut :=
                  if (direction = "outgoing" || direction = "both") &&
                      strIncl dep.dfrom entityName then
                    findDepsFuel idx direction depth fuel dep.dto
                      (currentDepth + 1)
                      { s with outgoing := s.outgoing ++ [dep],
                               graph := graphAdd s.graph dep.dfrom dep.dto }
                  else some s
                match afterOut with
                | none => none
                | some s2 =>
                  if (direction = "incoming" || direction = "both") &&
                      strIncl dep.dto entityName then
                    findDepsFuel idx direction depth fuel dep.dfrom
                      (currentDepth + 1)
                      { s2 with incoming := s2.incoming ++ [dep],
                                graph := graphAdd s2.graph dep.dto dep.dfrom }
                  else some s2)
            acc)
        (some st1)

/-- ProjectIndexer.findDependencies. -/
def findDependencies (idx : IndexData) (entityName direction : String)
    (depth : Nat) :
    String × List Dependency × List Dependency × List (String × List String) :=
  match findDepsFuel idx direction depth (depth + 1) entityName 0 {} with
  | some st => (entityName, st.incoming, st.outgoing, st.graph)
  | none => (entityName, [], [], [])

/-! ## analyzeProject and the MCP entry point -/

/-- JSON string literal (the analysis cache key never holds control
characters; backslash and quote escaping shown). -/
def jsonStr (s : String) : String :=
  "\x22" ++
    (⟨s.data.flatMap fun c =>
        if c = '\x22' || c = '\\' then ['\\', c] else [c]⟩ : String) ++
    "\x22"

def jsonStrList (l : List String) : String :=
  "[" ++ (⟨joinChar ',' ((l.map jsonStr).map String.data)⟩ : String) ++ "]"

/-- JSON.stringify of the options object, keys in construction order. -/
def stringifyOptions (opts : AnalysisOptions) : String :=
  "\x7b\x22projectPath\x22:" ++ jsonStr opts.projectPath ++
    ",\x22includePatterns\x22:" ++ jsonStrList opts.includePatterns ++
    ",\x22excludePatterns\x22:" ++ jsonStrList opts.excludePatterns ++
    ",\x22forceReindex\x22:" ++ (if opts.forceReindex then "true" else "false") ++
    "\x7d"

/-- The file table backing fs.stat and readFile, for the tree rooted at
the resolved project path. -/
def fsTableOf (projectPath : String) : FSTree → List (String × String × Nat)
  | .file _ _ _ => []
  | .dir _ entries => fsEntriesList projectPath entries

/-- ProjectIndexer.analyzeProject.  The wall-clock reads at entry and
completion are startTime and endTime; the config documents the resolver
loads in initialize are inputs.  Batched Promise.all processing writes
only per-file map keys, so it equals sequential processing in discovery
order. -/
def analyzeProject (cwd : String) (root : FSTree) (tsCfg : Option TsConfig)
    (pkg : Option PackageJson) (cache : CacheState SerializedIndexData)
    (startTime endTime : Nat) (opts : AnalysisOptions) :
    AnalyzeStats × IndexData × CacheState SerializedIndexData :=
  let projectPath := pathResolve cwd opts.projectPath
  let rst : ResolverState :=
    { cwd := cwd, projectRoot := projectPath, tsConfig := tsCfg,
      packageJson := pkg }
  let cacheKey := "project-" ++ projectPath ++ "-" ++ stringifyOptions opts
  let gotten := cacheGet cache cacheKey startTime
  let fresh : AnalyzeStats × IndexData × CacheState SerializedIndexData :=
    let files := findFiles cwd projectPath opts root
    let table := fsTableOf projectPath root
    let idx0 : IndexData := ⟨[], [], [], [], 0⟩
    let idx1 := files.foldl
      (fun idx f => processFile (some rst) table projectPath f idx) idx0
    let idx2 := { idx1 with lastIndexed := endTime }
    let cache2 := cacheSet gotten.2 cacheKey (serializeIndexData idx2)
      (some (1000 * 60 * 60 * 24)) endTime
    (getStats idx2 (endTime - startTime), idx2, cache2)
  match gotten.1 with
  | some cached =>
    if !opts.forceReindex then
      let idx := deserializeIndexData cached
      (getStats idx (endTime - startTime), idx, gotten.2)
    else fresh
  | none => fresh

structure McpAnalyzeArgs where
  projectPath : String
  includePatterns : Option (List String) := none
  excludePatterns : Option (List String) := none
  forceReindex : Option Bool := none

/-- Outcomes an analyze call could report.  The validationError form is
what the specification describes for a non-absolute projectPath; the
handler in src/mcp-server.ts builds no such value. -/
inductive AnalyzeOutcome where
  | validationError (message : String)
  | completed (stats : AnalyzeStats)
deriving Repr, DecidableEq

/-- The analyze_project tool handler of McpServer (src/mcp-server.ts):
destructure the arguments with their defaults and call the indexer; there
is no projectPath validation on any path through it. -/
def mcpAnalyzeProject (cwd : String) (root : FSTree) (tsCfg : Option TsConfig)
    (pkg : Option PackageJson) (cache : CacheState SerializedIndexData)
    (startTime endTime : Nat) (args : McpAnalyzeArgs) : AnalyzeOutcome :=
  let includePatterns :=
    args.includePatterns.getD ["**/*.ts", "**/*.js", "**/*.json"]
  let excludePatterns :=
    args.excludePatterns.getD ["node_modules/**", "dist/**", "**/*.d.ts"]
  let forceReindex := args.forceReindex.getD false
  let r := analyzeProject cwd root tsCfg pkg cache startTime endTime
    { projectPath := args.projectPath, includePatterns := includePatterns,
      excludePatterns := excludePatterns, forceReindex := forceReindex }
  .completed r.1

/-! ## Concrete specimens used by the claim theorems below -/

/-- A project tree (rooted at the resolved project path) holding one
TypeScript file, analyzed below through a relative projectPath. -/
def relPathTree : FSTree :=
  .dir "my-project"
    (.cons (.dir "src"
      (.cons (.file "a.ts" "export function f() \x7b\x7d" 5) .nil)) .nil)

/-- A project tree whose src directory holds one TypeScript file and one
JSON file. -/
def unrecExtTree : FSTree :=
  .dir "p"
    (.cons (.dir "src"
      (.cons (.file "a.ts" "export function f() \x7b\x7d" 5)
        (.cons (.file "data.json" "\x7b\x22a\x22:1\x7d" 6) .nil))) .nil)

/-- The analyze defaults of the tool handler. -/
def defaultOpts : AnalysisOptions :=
  { projectPath := "/p",
    includePatterns := ["**/*.ts", "**/*.js", "**/*.json"],
    excludePatterns := ["node_modules/**", "dist/**", "**/*.d.ts"],
    forceReindex := false }

/-- A two-node import cycle: A imports B and B imports A. -/
def cyclicIdx : IndexData :=
  ⟨[], [], [],
    [("/p/A.ts", [⟨"/p/A.ts", "./B", some "/p/B.ts", "import", "/p/A.ts", 1⟩]),
     ("/p/B.ts", [⟨"/p/B.ts", "./A", some "/p/A.ts", "import", "/p/B.ts", 1⟩])],
    0⟩

/-- A small concrete snapshot. -/
def rtIdx : IndexData :=
  ⟨[("/p/a.ts", ⟨"/p/a.ts", "a.ts", ".ts", 10, 5, false, "a.ts"⟩),
    ("/p/b.ts", ⟨"/p/b.ts", "b.ts", ".ts", 20, 6, false, "b.ts"⟩)],
   [("/p/a.ts",
     [{ name := "f", type := "function", file := "/p/a.ts", line := 1,
        column := 0, signature := "function f()" }])],
   [("/p/a.ts", [⟨"/users", "GET", "/p/a.ts", 2⟩])],
   [("/p/a.ts", [⟨"/p/a.ts", "./b", some "/p/b.ts", "import", "/p/a.ts", 1⟩])],
   1234⟩

/-- An index carrying the three config-named symbols and an unrelated
one. -/
def configIdx : IndexData :=
  ⟨[],
   [("/p/a.ts",
     [{ name := "loadConfig", type := "function", file := "/p/a.ts", line := 1,
        column := 0, signature := "" },
      { name := "CONFIG_INIT", type := "variable", file := "/p/a.ts", line := 2,
        column := 0, signature := "" },
      { name := "Config", type := "class", file := "/p/a.ts", line := 3,
        column := 0, signature := "" },
      { name := "other", type := "function", file := "/p/a.ts", line := 4,
        column := 0, signature := "" }])],
   [], [], 0⟩

/-! ## General lemmas -/

theorem tsizeL_append (a b : List RTok) : tsizeL (a ++ b) = tsizeL a + tsizeL b := by
  induction a with
  | nil => simp [tsizeL]
  | cons t ts ih => simp [tsizeL, ih]; omega

example : matchesPattern "src/a/b/c.ts" "**/*.ts" = true := by decide

example : pathResolve "/w" "my-project" = "/w/my-project" := by decide
example : pathResolve "/p/src" "./b" = "/p/src/b" := by decide
example : dirnameP "/p/src/a.ts" = "/p/src" := by decide
example : pathRelative "/p" "/p/src/b.ts" = "src/b.ts" := by decide

example :
    resolveImportPath ⟨"/w", "/p", none, none⟩ "./b" "/p/src/a.ts" =
      some "/p/src/b.ts" := by decide
example :
    resolveImportPath ⟨"/w", "/p", none, none⟩ "react" "/p/src/a.ts" = none := by
  decide
example :
    normalizeFilePath ⟨"/w", "/p", none, none⟩ "/p/src/b.ts" = "src/b.ts" := by
  decide

/-! ## Claim C1 -/

/-- C1: the analyze operation performs no projectPath validation at all:
every call completes (first conjunct: no argument set ever yields a
validation error), and the concrete relative path my-project is resolved
against the working directory and proceeds through discovery and indexing
to a normal result. -/
theorem C1_analyze_accepts_relative_path :
    (∀ (cwd : String) (root : FSTree) (tsCfg : Option TsConfig)
        (pkg : Option PackageJson) (cache : CacheState SerializedIndexData)
        (t0 t1 : Nat) (args : McpAnalyzeArgs),
      ∃ stats, mcpAnalyzeProject cwd root tsCfg pkg cache t0 t1 args =
        AnalyzeOutcome.completed stats) ∧
    mcpAnalyzeProject "/w" relPathTree none none ⟨[], []⟩ 100 200
        ⟨"my-project", none, none, none⟩ =
      AnalyzeOutcome.completed ⟨1, 1, 0, 0, 100⟩ := by
  exact ⟨fun cwd root tsCfg pkg cache t0 t1 args => ⟨_, rfl⟩, by decide⟩

/-! ## Claim C2 -/

mutual

theorem walkDirectory_parseable (cwd rpp : String) (inc : String → Bool)
    (dirPath : String) (t : FSTree) :
    ∀ f ∈ walkDirectory cwd rpp inc dirPath t, shouldParseFile f = true := by
  match t with
  | .file n c m => simp [walkDirectory]
  | .dir n entries =>
    intro f hf
    unfold walkDirectory at hf
    split at hf
    · simp at hf
    · exact walkEntries_parseable cwd rpp inc dirPath entries f hf

theorem walkEntries_parseable (cwd rpp : String) (inc : String → Bool)
    (dirPath : String) (l : FSList) :
    ∀ f ∈ walkEntries cwd rpp inc dirPath l, shouldParseFile f = true := by
  match l with
  | .nil => simp [walkEntries]
  | .cons e rest =>
    intro f hf
    unfold walkEntries at hf
    rw [List.mem_append] at hf
    rcases hf with hf | hf
    · split at hf
      · simp at hf
      · match e with
        | .dir n es =>
          exact walkDirectory_parseable cwd rpp inc _ _ f hf
        | .file n c m =>
          simp only [] at hf
          split at hf
          · rcases List.mem_singleton.mp hf with rfl
            rename_i hcond
            exact (Bool.and_eq_true _ _ |>.mp hcond).2
          · simp at hf
    · exact walkEntries_parseable cwd rpp inc dirPath rest f hf

end

/-- C2: discovery admits only parser-recognized extensions (first
conjunct), so a file that passes the include/exclude filters with an
unrecognized extension — here src/data.json, which even matches the
default include pattern — is dropped at discovery, never recorded as a
FileRecord and not counted in totalFiles. -/
theorem C2_unrecognized_extension_never_recorded :
    (∀ (cwd projectPath : String) (opts : AnalysisOptions) (root : FSTree),
      ∀ f ∈ findFiles cwd projectPath opts root, shouldParseFile f = true) ∧
    shouldInclude "/p" defaultOpts "/p/src/data.json" = true ∧
    shouldParseFile "/p/src/data.json" = false ∧
    findFiles "/w" "/p" defaultOpts unrecExtTree = ["/p/src/a.ts"] ∧
    (analyzeProject "/w" unrecExtTree none none ⟨[], []⟩ 100 200
      defaultOpts).1.totalFiles = 1 ∧
    mapGet (analyzeProject "/w" unrecExtTree none none ⟨[], []⟩ 100 200
      defaultOpts).2.1.files "/p/src/data.json" = none := by
  refine ⟨?_, by decide, by decide, by decide, by decide, by decide⟩
  intro cwd projectPath opts root f hf
  exact walkDirectory_parseable cwd _ _ projectPath root f hf

/-- Witness for C2: the one discovered file is indeed parser
recognized. -/
theorem C2_unrecognized_extension_never_recorded_witness :
    "/p/src/a.ts" ∈ findFiles "/w" "/p" defaultOpts unrecExtTree ∧
    shouldParseFile "/p/src/a.ts" = true :=
  ⟨by decide,
   C2_unrecognized_extension_never_recorded.1 "/w" "/p" defaultOpts
     unrecExtTree "/p/src/a.ts" (by decide)⟩

/-! ## Claims C3 and C10: resolver output shape -/

theorem strStarts_iff_slash (s : String) :
    strStarts s "/" = true ↔ ∃ t, s.data = '/' :: t := by
  constructor
  · intro h
    unfold strStarts at h
    match hs : s.data with
    | [] => rw [hs] at h; simp [List.isPrefixOf] at h
    | c :: t =>
      rw [hs] at h
      simp [List.isPrefixOf] at h
      exact ⟨t, by rw [← h]⟩
  · rintro ⟨t, ht⟩
    unfold strStarts
    rw [ht]
    simp [List.isPrefixOf]

theorem strStarts_slash_append (x : String) : strStarts ("/" ++ x) "/" = true := by
  rw [strStarts_iff_slash]
  exact ⟨x.data, by rw [String.data_append]; rfl⟩

theorem strStarts_append_left {a : String} (b : String)
    (h : strStarts a "/" = true) : strStarts (a ++ b) "/" = true := by
  rw [strStarts_iff_slash] at h ⊢
  obtain ⟨t, ht⟩ := h
  exact ⟨t ++ b.data, by rw [String.data_append, ht]; rfl⟩

theorem normPath_abs {s : String} (h : strStarts s "/" = true) :
    strStarts (normPath s) "/" = true := by
  unfold normPath
  rw [h]
  simp only [if_pos rfl]
  exact strStarts_slash_append _

theorem pathResolve_abs {base : String} (p : String)
    (h : strStarts base "/" = true) :
    strStarts (pathResolve base p) "/" = true := by
  unfold pathResolve
  split
  · exact normPath_abs (by assumption)
  · exact normPath_abs (strStarts_append_left p (strStarts_append_left "/" h))

theorem strEnds_iff (s suf : String) :
    strEnds s suf = true ↔ ∃ pre, s.data = pre ++ suf.data := by
  unfold strEnds
  rw [List.isPrefixOf_iff_prefix]
  constructor
  · rintro ⟨t, ht⟩
    refine ⟨t.reverse, ?_⟩
    have := congrArg List.reverse ht
    simpa using this.symm
  · rintro ⟨pre, hp⟩
    exact ⟨pre.reverse, by rw [hp]; simp⟩

theorem stripRecExt_abs {s : String} (h : strStarts s "/" = true) :
    strStarts (stripRecExt s) "/" = true := by
  obtain ⟨t, ht⟩ := (strStarts_iff_slash s).mp h
  have main : ∀ (suf : String), strEnds s suf = true → suf.data ≠ [] →
      ('/' ∉ suf.data) →
      strStarts (⟨s.data.take (s.data.length - suf.data.length)⟩ : String) "/"
        = true := by
    intro suf hend hne hns
    obtain ⟨pre, hp⟩ := (strEnds_iff s suf).mp hend
    have hpre : pre ≠ [] := by
      intro hnil
      rw [hnil, List.nil_append] at hp
      rw [ht] at hp
      exact hns (hp ▸ List.mem_cons_self '/' t)
    have hlen : s.data.length - suf.data.length = pre.length := by
      rw [hp]; simp
    rw [strStarts_iff_slash]
    rw [hlen, hp, List.take_left]
    match pre, hpre with
    | c :: pre2, _ =>
      have h2 : '/' :: t = c :: (pre2 ++ suf.data) := by rw [← ht, hp]; rfl
      have hc : c = '/' := by injection h2 with h3 h4; exact h3.symm
      exact ⟨pre2, by rw [hc]⟩
  unfold stripRecExt
  split
  · exact main ".json" (by assumption) (by decide) (by decide)
  · split
    · rename_i h2
      rcases Bool.or_eq_true _ _ |>.mp h2 with h3 | h3
      · exact main ".jsx" h3 (by decide) (by decide)
      · exact main ".tsx" h3 (by decide) (by decide)
    · split
      · rename_i h2
        rcases Bool.or_eq_true _ _ |>.mp h2 with h3 | h3
        · exact main ".js" h3 (by decide) (by decide)
        · exact main ".ts" h3 (by decide) (by decide)
      · exact h

theorem resolveToExistingFile_abs (st : ResolverState) {basePath : String}
    (h : strStarts basePath "/" = true) :
    strStarts (resolveToExistingFile st basePath) "/" = true := by
  unfold resolveToExistingFile
  split
  · exact strStarts_append_left ".ts" (stripRecExt_abs h)
  · split
    · split
      · exact strStarts_append_left ".ts" (stripRecExt_abs h)
      · exact strStarts_append_left ".js" (stripRecExt_abs h)
    · exact h

theorem splitChar_ne_nil (sep : Char) (l : List Char) : splitChar sep l ≠ [] := by
  match l with
  | [] => simp [splitChar]
  | c :: rest =>
    unfold splitChar
    split
    · simp
    · cases h : splitChar sep rest <;> simp

theorem dirnameP_abs {p : String} (h : strStarts p "/" = true) :
    strStarts (dirnameP p) "/" = true := by
  obtain ⟨t, ht⟩ := (strStarts_iff_slash p).mp h
  unfold dirnameP
  have hsplit : splitSlash p = "" :: (splitChar '/' t).map (⟨·⟩) := by
    unfold splitSlash
    rw [ht]
    conv in splitChar '/' ('/' :: t) => rw [splitChar]
    simp
  rw [hsplit]
  match hxs : (splitChar '/' t).map (fun l => (⟨l⟩ : String)) with
  | [] =>
    exact absurd (List.map_eq_nil_iff.mp hxs) (splitChar_ne_nil '/' t)
  | x :: xs2 =>
    simp only [List.length_cons]
    have hgt : ¬ (("" :: x :: xs2).length ≤ 1) := by simp
    rw [if_neg (by simp)]
    have hdl : ("" :: x :: xs2).dropLast = "" :: (x :: xs2).dropLast := rfl
    rw [hdl]
    match (x :: xs2).dropLast with
    | [] =>
      have : joinSegs [""] = "" := rfl
      rw [this]
      simp only [if_pos rfl]
      decide
    | y :: ys =>
      have habs : strStarts (joinSegs ("" :: y :: ys)) "/" = true := by
        rw [strStarts_iff_slash]
        exact ⟨joinChar '/' (y.data :: ys.map String.data), rfl⟩
      split
      · decide
      · exact habs

theorem foldl_option_pres {σ α : Type} (P : σ → Prop)
    (f : Option σ → α → Option σ) (l : List α)
    (hf : ∀ acc a r, f acc a = some r → (∀ r', acc = some r' → P r') → P r) :
    ∀ acc, (∀ r, acc = some r → P r) → ∀ r, l.foldl f acc = some r → P r := by
  induction l with
  | nil => intro acc hacc r hr; exact hacc r hr
  | cons a rest ih =>
    intro acc hacc r hr
    exact ih (f acc a) (fun r' h' => hf acc a r' h' hacc) r hr

/-- Successful resolution yields an absolute path whenever the importing
file and the project root are absolute. -/
theorem resolveImportPath_abs (st : ResolverState) (importPath fromFile : String)
    (hfrom : strStarts fromFile "/" = true)
    (hroot : strStarts st.projectRoot "/" = true) :
    ∀ r, resolveImportPath st importPath fromFile = some r →
      strStarts r "/" = true := by
  intro r hr
  unfold resolveImportPath at hr
  split at hr
  · -- package import
    unfold resolvePackageImport at hr
    split at hr
    · exact absurd hr (by simp)
    · split at hr
      · exact absurd hr (by simp)
      · split at hr
        · exact absurd hr (by simp)
        · simp only [Option.some.injEq] at hr
          subst hr
          exact resolveToExistingFile_abs st (pathResolve_abs _ hroot)
  · split at hr
    · -- relative import
      unfold resolveRelativeImport at hr
      simp only [Option.some.injEq] at hr
      subst hr
      exact resolveToExistingFile_abs st (pathResolve_abs _ (dirnameP_abs hfrom))
    · split at hr
      · -- absolute import
        unfold resolveAbsoluteImport at hr
        simp only [Option.some.injEq] at hr
        subst hr
        exact resolveToExistingFile_abs st (by assumption)
      · split at hr
        · -- tsconfig path mapping
          unfold resolvePathMapping at hr
          split at hr
          · exact absurd hr (by simp)
          · split at hr
            · exact absurd hr (by simp)
            · split at hr
              · exact absurd hr (by simp)
              · refine foldl_option_pres (fun r => strStarts r "/" = true) _ _
                  ?_ none (by simp) r hr
                intro acc e r2 hstep hacc
                match acc with
                | some r3 =>
                  simp at hstep
                  subst hstep
                  exact hacc r3 rfl
                | none =>
                  simp only [] at hstep
                  split at hstep
                  · refine foldl_option_pres (fun r => strStarts r "/" = true)
                      _ _ ?_ none (by simp) r2 hstep
                    intro acc2 target r4 hstep2 hacc2
                    match acc2 with
                    | some r5 =>
                      simp at hstep2
                      subst hstep2
                      exact hacc2 r5 rfl
                    | none =>
                      simp only [Option.some.injEq] at hstep2
                      subst hstep2
                      exact resolveToExistingFile_abs st
                        (pathResolve_abs _ (pathResolve_abs _ hroot))
                  · exact absurd hstep (by simp)
        · exact absurd hr (by simp)

/-- C3 counterexample: the ES-import edge for the bare specifier react
(which the resolver does not resolve) carries a present resolvedTo equal
to the raw specifier, which is not an absolute path. -/
theorem C3_counterexample :
    esImportDep (some ⟨"/w", "/p", none, none⟩) "/p/src/a.ts"
        "import x from \x22react\x22" 1 =
      [⟨"/p/src/a.ts", "react", some "react", "import", "/p/src/a.ts", 1⟩] ∧
    resolveImportPath ⟨"/w", "/p", none, none⟩ "react" "/p/src/a.ts" = none ∧
    strStarts "react" "/" = false := by
  refine ⟨by decide, by decide, by decide⟩

/-- C3 amended: the ES-import edge always carries a resolvedTo; when the
resolver fails it is the raw specifier unchanged (hence not an absolute
path for a bare package name), and when the resolver succeeds it is the
resolver result, which is absolute whenever the importing file and
project root are absolute. -/
theorem C3_resolvedTo_amended :
    ∀ (st : ResolverState) (filePath line : String) (lineNo : Nat)
      (spec : String),
      matchCap1 esImportToks line = some spec →
      ((resolveImportPath st spec filePath = none →
          esImportDep (some st) filePath line lineNo =
            [⟨filePath, spec, some spec, "import", filePath, lineNo⟩]) ∧
       (∀ r, resolveImportPath st spec filePath = some r →
          esImportDep (some st) filePath line lineNo =
            [⟨filePath, spec, some r, "import", filePath, lineNo⟩] ∧
          (strStarts filePath "/" = true → strStarts st.projectRoot "/" = true →
            strStarts r "/" = true))) := by
  intro st filePath line lineNo spec hmatch
  constructor
  · intro hres
    unfold esImportDep
    rw [hmatch]
    simp [hres]
  · intro r hres
    refine ⟨?_, fun h1 h2 => resolveImportPath_abs st spec filePath h1 h2 r hres⟩
    unfold esImportDep
    rw [hmatch]
    simp [hres]

/-- Witness for C3: both shapes realized at concrete inputs. -/
theorem C3_resolvedTo_amended_witness :
    esImportDep (some ⟨"/w", "/p", none, none⟩) "/p/src/a.ts"
        "import x from \x22react\x22" 1 =
      [⟨"/p/src/a.ts", "react", some "react", "import", "/p/src/a.ts", 1⟩] ∧
    esImportDep (some ⟨"/w", "/p", none, none⟩) "/p/src/a.ts"
        "import x from \x22./b\x22" 2 =
      [⟨"/p/src/a.ts", "./b", some "/p/src/b.ts", "import", "/p/src/a.ts", 2⟩] ∧
    strStarts "/p/src/b.ts" "/" = true :=
  ⟨(C3_resolvedTo_amended ⟨"/w", "/p", none, none⟩ "/p/src/a.ts"
      "import x from \x22react\x22" 1 "react" (by decide)).1 (by decide),
   ((C3_resolvedTo_amended ⟨"/w", "/p", none, none⟩ "/p/src/a.ts"
      "import x from \x22./b\x22" 2 "./b" (by decide)).2 "/p/src/b.ts"
      (by decide)).1,
   ((C3_resolvedTo_amended ⟨"/w", "/p", none, none⟩ "/p/src/a.ts"
      "import x from \x22./b\x22" 2 "./b" (by decide)).2 "/p/src/b.ts"
      (by decide)).2 (by decide) (by decide)⟩

/-- C10: when resolution succeeds, the ES-import rule stores the resolver
result as is while the require rule stores its project-relative
slash-normalized form. -/
theorem C10_resolvedTo_asymmetry :
    ∀ (st : ResolverState) (filePath esLine reqLine : String) (n1 n2 : Nat)
      (spec r : String),
      resolveImportPath st spec filePath = some r →
      (matchCap1 esImportToks esLine = some spec →
        esImportDep (some st) filePath esLine n1 =
          [⟨filePath, spec, some r, "import", filePath, n1⟩]) ∧
      (searchCap1 requireToks reqLine = some spec →
        requireDep (some st) filePath reqLine n2 =
          [⟨filePath, spec, some (normalizeFilePath st r), "import",
            filePath, n2⟩]) := by
  intro st filePath esLine reqLine n1 n2 spec r hres
  constructor
  · intro hmatch
    unfold esImportDep
    rw [hmatch]
    simp [hres]
  · intro hmatch
    unfold requireDep
    rw [hmatch]
    simp [hres]

/-- Witness for C10: the same specifier ./b from the same file stores
/p/src/b.ts on the import line but src/b.ts on the require line. -/
theorem C10_resolvedTo_asymmetry_witness :
    esImportDep (some ⟨"/w", "/p", none, none⟩) "/p/src/a.ts"
        "import x from \x22./b\x22" 1 =
      [⟨"/p/src/a.ts", "./b", some "/p/src/b.ts", "import", "/p/src/a.ts", 1⟩] ∧
    requireDep (some ⟨"/w", "/p", none, none⟩) "/p/src/a.ts"
        "const b = require(\x22./b\x22)" 2 =
      [⟨"/p/src/a.ts", "./b", some "src/b.ts", "import", "/p/src/a.ts", 2⟩] ∧
    ("/p/src/b.ts" : String) ≠ "src/b.ts" := by
  refine ⟨(C10_resolvedTo_asymmetry ⟨"/w", "/p", none, none⟩ "/p/src/a.ts"
      "import x from \x22./b\x22" "const b = require(\x22./b\x22)" 1 2 "./b"
      "/p/src/b.ts" (by decide)).1 (by decide), ?_, by decide⟩
  have h := (C10_resolvedTo_asymmetry ⟨"/w", "/p", none, none⟩ "/p/src/a.ts"
      "import x from \x22./b\x22" "const b = require(\x22./b\x22)" 1 2 "./b"
      "/p/src/b.ts" (by decide)).2 (by decide)
  rw [h]
  decide

/-! ## Claim C4: route extraction -/

/-- The two dot-style route regexes of parsePaths are the same pattern. -/
theorem expressToks_eq_honoToks : expressToks = honoToks := rfl

theorem honoRule_line (f l : String) (n : Nat) :
    ∀ r ∈ honoRule f l n, r.line = n := by
  intro r hr
  unfold honoRule at hr
  split at hr
  · split at hr
    · split at hr
      · rcases List.mem_singleton.mp hr with rfl; rfl
      · simp at hr
    · simp at hr
  · simp at hr

theorem expressRule_line (f l : String) (n : Nat) :
    ∀ r ∈ expressRule f l n, r.line = n := by
  intro r hr
  unfold expressRule at hr
  split at hr
  · split at hr
    · split at hr
      · rcases List.mem_singleton.mp hr with rfl; rfl
      · simp at hr
    · simp at hr
  · simp at hr

theorem decoratorRule_line (f l : String) (n : Nat) :
    ∀ r ∈ decoratorRule f l n, r.line = n := by
  intro r hr
  unfold decoratorRule at hr
  split at hr
  · split at hr
    · split at hr
      · rcases List.mem_singleton.mp hr with rfl; rfl
      · simp at hr
    · simp at hr
  · simp at hr

theorem parsePathsLine_line (f l : String) (n : Nat) :
    ∀ r ∈ parsePathsLine f l n, r.line = n := by
  intro r hr
  unfold parsePathsLine at hr
  rcases List.mem_append.mp hr with hr | hr
  · rcases List.mem_append.mp hr with hr | hr
    · exact honoRule_line f l n r hr
    · exact expressRule_line f l n r hr
  · exact decoratorRule_line f l n r hr

/-- Within the whole-file extraction, the records carrying line number
i + 1 are exactly the records the (i+1)-st line produces. -/
theorem parsePaths_chunk (f : String) (lines : List String) :
    ∀ (k i : Nat) (line : String), lines.get? i = some line →
      ((lines.enumFrom k).flatMap
          (fun p => parsePathsLine f p.2 (p.1 + 1))).filter
        (fun r => r.line = k + i + 1) =
        parsePathsLine f line (k + i + 1) := by
  induction lines with
  | nil => intro k i line h; simp at h
  | cons a rest ih =>
    intro k i line h
    match i with
    | 0 =>
      simp only [List.get?] at h
      injection h with h
      have hcons : List.enumFrom k (a :: rest) =
          (k, a) :: List.enumFrom (k + 1) rest := rfl
      rw [hcons]
      simp only [List.flatMap_cons, List.filter_append]
      have h1 : (parsePathsLine f a (k + 1)).filter
          (fun r => r.line = k + 0 + 1) = parsePathsLine f a (k + 1) := by
        refine List.filter_eq_self.mpr ?_
        intro r hr
        have := parsePathsLine_line f a (k + 1) r hr
        simp [this]
      have h2 : ((List.enumFrom (k + 1) rest).flatMap
          (fun p => parsePathsLine f p.2 (p.1 + 1))).filter
            (fun r => r.line = k + 0 + 1) = [] := by
        rw [List.filter_flatMap]
        refine List.flatMap_eq_nil_iff.mpr ?_
        intro p hp
        refine List.filter_eq_nil_iff.mpr ?_
        intro r hr
        have hline := parsePathsLine_line f p.2 (p.1 + 1) r hr
        have hge : k + 1 ≤ p.1 := (List.mem_enumFrom hp).1
        simp only [hline, decide_eq_true_eq]
        omega
      rw [h1, h2, List.append_nil, ← h]
    | Nat.succ j =>
      simp only [List.get?] at h
      have hcons : List.enumFrom k (a :: rest) =
          (k, a) :: List.enumFrom (k + 1) rest := rfl
      rw [hcons]
      simp only [List.flatMap_cons, List.filter_append]
      have h1 : (parsePathsLine f a (k + 1)).filter
          (fun r => r.line = k + (j + 1) + 1) = [] := by
        refine List.filter_eq_nil_iff.mpr ?_
        intro r hr
        have := parsePathsLine_line f a (k + 1) r hr
        simp only [this, decide_eq_true_eq]
        omega
      have h2 := ih (k + 1) j line h
      rw [h1, List.nil_append]
      have harith : k + 1 + j + 1 = k + (j + 1) + 1 := by omega
      rw [harith] at h2
      exact h2

/-- The two dot-style rules are the same function. -/
theorem expressRule_eq_honoRule : expressRule = honoRule := rfl

/-- C4 counterexample: a single dot-verb route line yields two identical
RouteRecords (one from each of the two textually identical router-style
rules), not exactly one. -/
theorem C4_counterexample :
    parsePaths "app.get(\x22/users\x22, handler)" "/f.ts" =
      [⟨"/users", "GET", "/f.ts", 1⟩, ⟨"/users", "GET", "/f.ts", 1⟩] ∧
    (parsePaths "app.get(\x22/users\x22, handler)" "/f.ts").length ≠ 1 := by
  refine ⟨by decide, by decide⟩

/-- C4 amended: a line matching the dot-verb rule (and not the decorator
rule) emits exactly two identical RouteRecords carrying the path
template, the upper-cased verb and the line number; a line matching only
the decorator rule emits exactly one; within parsePaths the records
carrying line number i + 1 are exactly those of the (i+1)-st line. -/
theorem C4_routes_amended :
    (∀ (f l : String) (n : Nat) (p v : String),
      searchCap1 honoToks l = some p →
      (searchCap1 dotVerbToks l).map upperStr = some v →
      httpMethods.contains v = true →
      decoratorRule f l n = [] →
      parsePathsLine f l n = [⟨p, v, f, n⟩, ⟨p, v, f, n⟩]) ∧
    (∀ (f l : String) (n : Nat) (p v : String),
      searchCap1 decoratorToks l = some p →
      (searchCap1 atVerbToks l).map upperStr = some v →
      httpMethods.contains v = true →
      honoRule f l n = [] →
      parsePathsLine f l n = [⟨p, v, f, n⟩]) ∧
    (∀ (content f : String) (i : Nat) (line : String),
      (splitNl content).get? i = some line →
      (parsePaths content f).filter (fun r => r.line = i + 1) =
        parsePathsLine f line (i + 1)) := by
  refine ⟨?_, ?_, ?_⟩
  · intro f l n p v h1 h2 h3 h4
    have hh : honoRule f l n = [⟨p, v, f, n⟩] := by
      unfold honoRule
      rw [h1, h2]
      simp [h3]
      exact List.elem_iff.mp h3
    have he : expressRule f l n = [⟨p, v, f, n⟩] := by
      rw [expressRule_eq_honoRule]; exact hh
    unfold parsePathsLine
    rw [hh, he, h4]
    rfl
  · intro f l n p v h1 h2 h3 h4
    have hd : decoratorRule f l n = [⟨p, v, f, n⟩] := by
      unfold decoratorRule
      rw [h1, h2]
      simp [h3]
      exact List.elem_iff.mp h3
    have he : expressRule f l n = [] := by
      rw [expressRule_eq_honoRule]; exact h4
    unfold parsePathsLine
    rw [hd, he, h4]
    rfl
  · intro content f i line h
    have := parsePaths_chunk f (splitNl content) 0 i line h
    unfold parsePaths
    simpa using this

/-- Witness for C4: each amended case realized concretely. -/
theorem C4_routes_amended_witness :
    parsePathsLine "/f.ts" "app.get(\x22/users\x22, handler)" 1 =
      [⟨"/users", "GET", "/f.ts", 1⟩, ⟨"/users", "GET", "/f.ts", 1⟩] ∧
    parsePathsLine "/f.ts" "@post(\x22/users\x22)" 3 =
      [⟨"/users", "POST", "/f.ts", 3⟩] ∧
    (parsePaths "x\napp.get(\x22/users\x22, handler)" "/f.ts").filter
        (fun r => r.line = 2) =
      parsePathsLine "/f.ts" "app.get(\x22/users\x22, handler)" 2 :=
  ⟨C4_routes_amended.1 "/f.ts" "app.get(\x22/users\x22, handler)" 1 "/users"
      "GET" (by decide) (by decide) (by decide) (by decide),
   C4_routes_amended.2.1 "/f.ts" "@post(\x22/users\x22)" 3 "/users" "POST"
      (by decide) (by decide) (by decide) (by decide),
   C4_routes_amended.2.2 "x\napp.get(\x22/users\x22, handler)" "/f.ts" 1
      "app.get(\x22/users\x22, handler)" (by decide)⟩

/-! ## Claim C5: glob semantics -/

theorem spanSuffixes_any (p : Char → Bool) (l : List Char) :
    ((spanSuffixes p l).any List.isEmpty) = l.all p := by
  induction l with
  | nil => rfl
  | cons d ds ih =>
    unfold spanSuffixes
    by_cases h : p d
    · simp [h, ih]
    · simp [h]

theorem gmatch_dstar (l : List Char) : gmatch [GTok.dstar] l = l.all jsDot := by
  simp [gmatch, gmatchAux, spanSuffixes_any]

theorem gmatch_star (l : List Char) :
    gmatch [GTok.star] l = l.all (fun c => !(c = '/')) := by
  simp [gmatch, gmatchAux, spanSuffixes_any]

/-- C5: the compiled glob subset behaves as specified — a lone double star
accepts exactly the regex-dot character strings (so it crosses path
separators), a lone star accepts exactly the separator-free strings, a
question mark accepts exactly one regex-dot character, matching is
anchored — and the four stated examples follow. -/
theorem C5_glob_semantics :
    (∀ s : String, matchesPattern s "**" = true ↔
      (normSlash s).data.all jsDot = true) ∧
    (∀ s : String, matchesPattern s "*" = true ↔
      (normSlash s).data.all (fun c => !(c = '/')) = true) ∧
    (∀ s : String, matchesPattern s "?" = true ↔
      ((normSlash s).data.length = 1 ∧ (normSlash s).data.all jsDot = true)) ∧
    matchesPattern "src/a/b/c.ts" "**/*.ts" = true ∧
    matchesPattern "src/a/b/c.js" "**/*.ts" = false ∧
    matchesPattern "node_modules/x/y.ts" "node_modules/**" = true ∧
    matchesPattern "src/node_modules_helper.ts" "node_modules/**" = false := by
  refine ⟨?_, ?_, ?_, by decide, by decide, by decide, by decide⟩
  · intro s
    show gmatch [GTok.dstar] (normSlash s).data = true ↔ _
    rw [gmatch_dstar]
  · intro s
    show gmatch [GTok.star] (normSlash s).data = true ↔ _
    rw [gmatch_star]
  · intro s
    show gmatch [GTok.qmark] (normSlash s).data = true ↔ _
    match h : (normSlash s).data with
    | [] => simp [gmatch, gmatchAux]
    | [c] =>
      by_cases hc : jsDot c = true <;> simp [gmatch, gmatchAux, hc]
    | c :: d :: rest =>
      by_cases hc : jsDot c = true <;> simp [gmatch, gmatchAux, hc]

/-! ## Claim C6: cache TTL -/

theorem mapGet_map_replace {V : Type} (m : List (String × V)) (k : String)
    (v : V) (h : m.any (fun p => p.1 = k) = true) :
    mapGet (m.map (fun p => if p.1 = k then (k, v) else p)) k = some v := by
  induction m with
  | nil => simp at h
  | cons a m ih =>
    by_cases ha : a.1 = k
    · simp only [List.map_cons, if_pos ha]
      unfold mapGet
      simp [List.find?]
    · simp only [List.map_cons, if_neg ha]
      simp only [List.any_cons] at h
      rcases Bool.or_eq_true _ _ |>.mp h with h1 | h1
      · exact absurd (of_decide_eq_true h1) ha
      · have := ih h1
        unfold mapGet at this ⊢
        simp only [List.find?]
        rw [decide_eq_false ha]
        exact this

theorem mapGet_append_new {V : Type} (m : List (String × V)) (k : String)
    (v : V) (h : m.any (fun p => p.1 = k) = false) :
    mapGet (m ++ [(k, v)]) k = some v := by
  induction m with
  | nil => simp [mapGet, List.find?]
  | cons a m ih =>
    simp only [List.any_cons, Bool.or_eq_false_iff] at h
    have ha : ¬ (a.1 = k) := by
      intro hk
      have := h.1
      rw [decide_eq_true hk] at this
      exact Bool.true_eq_false.mp this
    unfold mapGet
    simp only [List.cons_append, List.find?]
    rw [decide_eq_false ha]
    have := ih h.2
    unfold mapGet at this
    exact this

theorem mapGet_mapSet {V : Type} (m : List (String × V)) (k : String) (v : V) :
    mapGet (mapSet m k v) k = some v := by
  unfold mapSet
  split
  · exact mapGet_map_replace m k v (by assumption)
  · rename_i hany
    simp only [Bool.not_eq_true] at hany
    exact mapGet_append_new m k v hany

/-- C6: after storing a value with a positive ttl at time t0, a get at
time now returns the value exactly when now - t0 ≤ ttl and null when
now - t0 > ttl, through both tiers (an expired entry is also purged from
the persisted tier). -/
theorem C6_cache_ttl (α : Type) (st : CacheState α) (key : String) (v : α)
    (ttl t0 now : Nat) (httl : 0 < ttl) :
    (cacheGet (cacheSet st key v (some ttl) t0) key now).1 =
      (if now - t0 ≤ ttl then some v else none) := by
  unfold cacheSet cacheGet
  have httl0 : ¬ (ttl = 0) := Nat.pos_iff_ne_zero.mp httl
  simp only [if_neg httl0]
  rw [mapGet_mapSet, mapGet_mapSet]
  by_cases h : now - t0 ≤ ttl
  · have hexp : isExpired now
        (⟨v, t0, some ttl⟩ : CacheEntry α) = false := by
      unfold isExpired
      simp [if_neg httl0]
      omega
    simp [hexp, h]
  · have hexp : isExpired now
        (⟨v, t0, some ttl⟩ : CacheEntry α) = true := by
      unfold isExpired
      simp [if_neg httl0]
      omega
    simp [hexp, h]

/-- Witness for C6: the stated 100 ms entry read at once and after
150 ms. -/
theorem C6_cache_ttl_witness :
    0 < 100 ∧
    (cacheGet (cacheSet (⟨[], []⟩ : CacheState Nat) "k" 42 (some 100) 1000)
      "k" 1000).1 = some 42 ∧
    (cacheGet (cacheSet (⟨[], []⟩ : CacheState Nat) "k" 42 (some 100) 1000)
      "k" 1150).1 = none := by
  refine ⟨by decide, ?_, ?_⟩
  · rw [C6_cache_ttl Nat ⟨[], []⟩ "k" 42 100 1000 1000 (by decide)]
    decide
  · rw [C6_cache_ttl Nat ⟨[], []⟩ "k" 42 100 1000 1150 (by decide)]
    decide

/-! ## Claim C7: findDependencies termination -/

theorem foldl_option_isSome {σ α : Type} (f : Option σ → α → Option σ)
    (hf : ∀ s a, (f (some s) a).isSome = true) (l : List α) :
    ∀ acc, acc.isSome = true → (l.foldl f acc).isSome = true := by
  induction l with
  | nil => intro acc h; exact h
  | cons a rest ih =>
    intro acc h
    match acc, h with
    | some s, _ => exact ih (f (some s) a) (hf s a)

/-- Fuel exceeding the remaining depth budget is never exhausted: the
depth guard and the visited check of the source recursion stop every
branch in at most depth - currentDepth further hops. -/
theorem findDepsFuel_isSome (idx : IndexData) (direction : String)
    (depth : Nat) :
    ∀ (fuel : Nat) (entityName : String) (currentDepth : Nat) (st : DepState),
      depth - currentDepth < fuel →
      (findDepsFuel idx direction depth fuel entityName currentDepth st).isSome
        = true := by
  intro fuel
  induction fuel with
  | zero => intro name cd st h; omega
  | succ fuel ih =>
    intro name cd st h
    unfold findDepsFuel
    split
    · simp
    · rename_i hguard
      have hcd : cd < depth := by
        by_contra hge
        exact hguard (by
          simp only [Bool.or_eq_true, decide_eq_true_eq]
          exact Or.inl (by omega))
      apply foldl_option_isSome
      · intro s p
        apply foldl_option_isSome
        · intro s2 dep
          show (match
              (if (direction = "outgoing" || direction = "both") &&
                  strIncl dep.dfrom name then
                findDepsFuel idx direction depth fuel dep.dto (cd + 1)
                  { s2 with outgoing := s2.outgoing ++ [dep],
                            graph := graphAdd s2.graph dep.dfrom dep.dto }
              else some s2) with
            | none => none
            | some s3 =>
              if (direction = "incoming" || direction = "both") &&
                  strIncl dep.dto name then
                findDepsFuel idx direction depth fuel dep.dfrom (cd + 1)
                  { s3 with incoming := s3.incoming ++ [dep],
                            graph := graphAdd s3.graph dep.dto dep.dfrom }
              else some s3).isSome = true
          have hout : (if (direction = "outgoing" || direction = "both") &&
              strIncl dep.dfrom name then
                findDepsFuel idx direction depth fuel dep.dto (cd + 1)
                  { s2 with outgoing := s2.outgoing ++ [dep],
                            graph := graphAdd s2.graph dep.dfrom dep.dto }
              else some s2).isSome = true := by
            split
            · exact ih dep.dto (cd + 1) _ (by omega)
            · simp
          obtain ⟨s3, hs3⟩ := Option.isSome_iff_exists.mp hout
          rw [hs3]
          show (if (direction = "incoming" || direction = "both") &&
              strIncl dep.dto name then
                findDepsFuel idx direction depth fuel dep.dfrom (cd + 1)
                  { s3 with incoming := s3.incoming ++ [dep],
                            graph := graphAdd s3.graph dep.dto dep.dfrom }
              else some s3).isSome = true
          split
          · exact ih dep.dfrom (cd + 1) _ (by omega)
          · simp
        · simp
      · simp

/-- C7: findDependencies terminates for every index state, direction and
depth in the stated range — the fueled embedding never exhausts its fuel,
so the result equals a fully computed traversal state. -/
theorem C7_findDependencies_terminates :
    ∀ (idx : IndexData) (entityName direction : String) (depth : Nat),
      1 ≤ depth → depth ≤ 10 →
      ∃ st, findDepsFuel idx direction depth (depth + 1) entityName 0
          ⟨[], [], [], []⟩ = some st ∧
        findDependencies idx entityName direction depth =
          (entityName, st.incoming, st.outgoing, st.graph) := by
  intro idx name dir depth h1 h10
  have hs := findDepsFuel_isSome idx dir depth (depth + 1) name 0
    ⟨[], [], [], []⟩ (by omega)
  obtain ⟨st, hst⟩ := Option.isSome_iff_exists.mp hs
  refine ⟨st, hst, ?_⟩
  unfold findDependencies
  rw [hst]

/-- Witness for C7: the traversal of the cyclic index completes at the
maximal depth. -/
theorem C7_findDependencies_terminates_witness :
    (1 ≤ 10 ∧ 10 ≤ 10) ∧
    ∃ st, findDepsFuel cyclicIdx "both" 10 11 "A" 0 ⟨[], [], [], []⟩ =
        some st ∧
      findDependencies cyclicIdx "A" "both" 10 =
        ("A", st.incoming, st.outgoing, st.graph) :=
  ⟨⟨by decide, by decide⟩,
   C7_findDependencies_terminates cyclicIdx "A" "both" 10 (by decide)
     (by decide)⟩

/-! ## Claim C8: snapshot round-trip -/

theorem mapSet_new {V : Type} (m : List (String × V)) (k : String) (v : V)
    (h : m.any (fun p => p.1 = k) = false) : mapSet m k v = m ++ [(k, v)] := by
  unfold mapSet
  rw [if_neg]
  simp [h]

theorem foldl_mapSet {V : Type} :
    ∀ (l acc : List (String × V)),
      (∀ p ∈ l, acc.any (fun q => q.1 = p.1) = false) →
      (l.map Prod.fst).Nodup →
      l.foldl (fun m p => mapSet m p.1 p.2) acc = acc ++ l := by
  intro l
  induction l with
  | nil => intro acc _ _; simp
  | cons p rest ih =>
    intro acc hnew hdup
    simp only [List.foldl_cons]
    rw [mapSet_new acc p.1 p.2 (hnew p (List.mem_cons_self p rest))]
    rw [List.map_cons, List.nodup_cons] at hdup
    have hstep : ∀ q ∈ rest, (acc ++ [p]).any (fun r => r.1 = q.1) = false := by
      intro q hq
      rw [List.any_append]
      have h1 := hnew q (List.mem_cons_of_mem p hq)
      have h2 : ¬ (p.1 = q.1) := by
        intro hk
        exact hdup.1 (hk ▸ List.mem_map_of_mem Prod.fst hq)
      simp [h1, h2]
    rw [ih (acc ++ [p]) hstep hdup.2]
    simp

theorem mapFromEntries_eq {V : Type} (l : List (String × V))
    (h : (l.map Prod.fst).Nodup) : mapFromEntries l = l := by
  unfold mapFromEntries
  rw [foldl_mapSet l [] (by intro p _; rfl) h]
  simp

/-- C8: deserializing a serialized snapshot reproduces the snapshot
whenever its four entry lists have pairwise distinct keys, which every
snapshot taken from the JavaScript Maps has. -/
theorem C8_snapshot_roundtrip (idx : IndexData)
    (h1 : (idx.files.map Prod.fst).Nodup)
    (h2 : (idx.methods.map Prod.fst).Nodup)
    (h3 : (idx.paths.map Prod.fst).Nodup)
    (h4 : (idx.dependencies.map Prod.fst).Nodup) :
    deserializeIndexData (serializeIndexData idx) = idx := by
  unfold serializeIndexData deserializeIndexData
  simp only [mapFromEntries_eq _ h1, mapFromEntries_eq _ h2,
    mapFromEntries_eq _ h3, mapFromEntries_eq _ h4]

/-- Witness for C8 at the concrete snapshot. -/
theorem C8_snapshot_roundtrip_witness :
    ((rtIdx.files.map Prod.fst).Nodup ∧ (rtIdx.methods.map Prod.fst).Nodup ∧
     (rtIdx.paths.map Prod.fst).Nodup ∧
     (rtIdx.dependencies.map Prod.fst).Nodup) ∧
    deserializeIndexData (serializeIndexData rtIdx) = rtIdx :=
  ⟨⟨by decide, by decide, by decide, by decide⟩,
   C8_snapshot_roundtrip rtIdx (by decide) (by decide) (by decide) (by decide)⟩

/-! ## Claim C9: search semantics -/

/-- C9: a symbol is in the search result exactly when it is stored, its
kind passes the filter, and its name matches the query case-insensitively
by containment or by the escaped query regex; the usages annotation is
attached exactly when requested.  Consequently search for config finds
loadConfig, CONFIG_INIT and Config. -/
theorem C9_search_matching :
    (∀ (idx : IndexData) (query type : String) (includeUsages : Bool)
        (m : MethodInfo) (u : Option (List String)),
      (m, u) ∈ searchMethods idx query type includeUsages ↔
        (m ∈ getAllMethods idx ∧
         (type = "all" ∨ m.type = type) ∧
         (strIncl (lowerStr m.name) (lowerStr query) = true ∨
           queryRegexTest query m.name = true) ∧
         u = (if includeUsages then some (findMethodUsages idx m.name)
           else none))) ∧
    (searchMethods configIdx "config" "all" false).map (fun p => p.1.name) =
      ["loadConfig", "CONFIG_INIT", "Config"] := by
  refine ⟨?_, by decide⟩
  intro idx query type includeUsages m u
  unfold searchMethods getAllMethods
  simp only [List.mem_flatMap, List.mem_filterMap]
  constructor
  · rintro ⟨p, hp, m', hm', hf⟩
    by_cases htype : type ≠ "all" && m'.type ≠ type
    · rw [if_pos htype] at hf
      exact absurd hf (by simp)
    · rw [if_neg htype] at hf
      by_cases hname : strIncl (lowerStr m'.name) (lowerStr query) ||
          queryRegexTest query m'.name
      · rw [if_pos hname] at hf
        injection hf with hf
        injection hf with hfm hfu
        subst hfm
        refine ⟨⟨p, hp, hm'⟩, ?_, ?_, hfu.symm⟩
        · by_cases hA : type = "all"
          · exact Or.inl hA
          · refine Or.inr ?_
            by_contra hB
            exact htype (by simp [hA, hB])
        · rcases Bool.or_eq_true _ _ |>.mp hname with h | h
          · exact Or.inl h
          · exact Or.inr h
      · rw [if_neg hname] at hf
        exact absurd hf (by simp)
  · rintro ⟨⟨p, hp, hm⟩, htype, hname, hu⟩
    refine ⟨p, hp, m, hm, ?_⟩
    have hcond : ¬ ((type ≠ "all" && m.type ≠ type) = true) := by
      intro hx
      rcases htype with h | h
      · simp [h] at hx
      · simp [h] at hx
    rw [if_neg hcond]
    have hn : (strIncl (lowerStr m.name) (lowerStr query) ||
        queryRegexTest query m.name) = true := by
      rcases hname with h | h <;> simp [h]
    rw [if_pos hn, hu]
